import Mathlib

/-!
Verification of the map-coloring CSP engine
============================================

Shallow embedding of `CSP.py` and `Solver.py` from the map-coloring
repository, together with proofs and refutations of the specified
properties of the constraint model and the backtracking engine.

Modelling conventions:

* Variable handles are `String`s.  The application sometimes registers a
  constraint whose partner slot holds Python `None` (`[region, None]`);
  we encode `None` as the empty string `""`, which is exactly the string
  whose Python truthiness is `False`, and encode the `isinstance(·, str)`
  test as a `≠ ""` test (the only non-string value ever stored in a
  variable slot is `None`).
* Python dictionaries (`variables`, `var_constraints`, `assignments`)
  are modelled as functions `String → Option _`; no specified property
  observes dictionary iteration order.
* A constraint function receives the candidate value of its first
  variable and either the value assigned to the partner or the empty
  list `[]` when the partner is unassigned; `Option V` models the second
  argument, with `none` standing for the `[]` sentinel.
* Mutating operations that can raise (`KeyError` of a dict lookup,
  `ValueError` of `list.remove`, `IndexError` of `[0]`) return
  `Except (CSPState V) _`; the error value carries the state at the
  point where the exception is raised, since Python exceptions leave
  in-place mutations behind.
* `list.remove` removes the first occurrence; it is modelled by
  `List.erase`.
-/

set_option maxHeartbeats 1000000

/-- A binary-constraint predicate: first argument is the candidate value for
the constraint's first variable, second is the partner's recorded value or
`none` for the Python `[]` "unassigned" sentinel. -/
abbrev CPred (V : Type) := V → Option V → Bool

/-- The attributes set up by `CSP.__init__`. -/
structure CSPState (V : Type) where
  variables_ : String → Option (List V)
  constraints : List (CPred V × (String × String))
  unassigned_var : List String
  var_constraints : String → Option (List (CPred V × (String × String)))
  assignments : String → Option V
  assignments_number : Nat

/-- Pointwise update of a string-keyed dictionary. -/
def updf {α : Type} (f : String → Option α) (k : String) (v : Option α) :
    String → Option α :=
  fun x => if x = k then v else f x

/-- Current domain of a variable (empty for an unregistered one); a
convenience for stating properties. -/
def domOf {V : Type} (st : CSPState V) (w : String) : List V :=
  (st.variables_ w).getD []

namespace CSP

variable {V : Type} [DecidableEq V]

/-- `CSP.__init__`: the freshly constructed, empty model. -/
def init (V : Type) : CSPState V :=
  { variables_ := fun _ => none
    constraints := []
    unassigned_var := []
    var_constraints := fun _ => none
    assignments := fun _ => none
    assignments_number := 0 }

/-- `CSP.add_constraint`.  The Python loop
`for constraint_func, tuples in self.var_constraints[variable]` reuses the
parameter name `constraint_func` as its loop variable, so after iterating a
non-empty entry the appended function is the one of the *last previously
registered* constraint for `variable`, not the argument; the `foldl` below
reproduces that shadowing. -/
def add_constraint (st : CSPState V) (constraint_func : CPred V)
    (variables_ : String × String) : CSPState V :=
  let v := variables_.1
  let entry := (st.var_constraints v).getD []
  let func := entry.foldl (fun _ e => e.1) constraint_func
  let ex := entry.any (fun e => e.2.2 == variables_.2)
  if ex then st
  else
    { st with
      var_constraints := updf st.var_constraints v (some (entry ++ [(func, variables_)]))
      constraints := st.constraints ++ [(func, variables_)] }

/-- `CSP.add_variable`: (re)binds the domain and appends to the unassigned
list unconditionally, even when the variable was already registered. -/
def add_variable (st : CSPState V) (variable_ : String) (domain : List V) :
    CSPState V :=
  { st with
    variables_ := updf st.variables_ variable_ (some domain)
    unassigned_var := st.unassigned_var ++ [variable_] }

/-- `CSP.is_consistent`: checks the constraints keyed on `variable_`, passing
the partner's assigned value or the `[]` sentinel (`none`). -/
def is_consistent (st : CSPState V) (variable_ : String) (value : V) : Bool :=
  match st.var_constraints variable_ with
  | none => true
  | some entry => entry.all (fun c => c.1 value (st.assignments c.2.2))

/-- `CSP.assign`: writes the assignment first, then removes the variable from
the unassigned list (`list.remove` raises `ValueError` if absent — at that
point the mapping is already overwritten), bumps the counter and returns the
consistency check. -/
def assign (st : CSPState V) (variable_ : String) (value : V) :
    Except (CSPState V) (Bool × CSPState V) :=
  let st1 := { st with assignments := updf st.assignments variable_ (some value) }
  if st1.unassigned_var.contains variable_ then
    let st2 := { st1 with
      unassigned_var := st1.unassigned_var.erase variable_
      assignments_number := st1.assignments_number + 1 }
    .ok (is_consistent st2 variable_ value, st2)
  else
    .error st1

/-- `CSP.is_complete`. -/
def is_complete (st : CSPState V) : Bool :=
  st.unassigned_var.length == 0

/-- `CSP.is_assigned`. -/
def is_assigned (st : CSPState V) (variable_ : String) : Bool :=
  ! st.unassigned_var.contains variable_

/-- `CSP.restore_value`: appends each journalled value back into the named
variable's domain; the dict lookup raises `KeyError` for an unregistered
variable. -/
def restore_value : CSPState V → List (String × V) → Except (CSPState V) (CSPState V)
  | st, [] => .ok st
  | st, (w, value) :: rest =>
    match st.variables_ w with
    | none => .error st
    | some d =>
      restore_value { st with variables_ := updf st.variables_ w (some (d ++ [value])) } rest

/-- `CSP.unassign`: only acts when the variable is currently assigned. -/
def unassign (st : CSPState V) (removed_values_from_domain : List (String × V))
    (variable_ : String) : Except (CSPState V) (CSPState V) :=
  if (st.assignments variable_).isSome then
    restore_value
      { st with
        assignments := updf st.assignments variable_ none
        unassigned_var := st.unassigned_var ++ [variable_] }
      removed_values_from_domain
  else
    .ok st

/-- The neighbor-pruning loop of `CSP.remove_value`: for each constraint keyed
on the variable, if the partner slot is truthy (`≠ ""`, i.e. not `None`) and
the assigned value occurs in the partner's domain, remove one occurrence and
journal it.  The partner's dict lookup raises `KeyError` when the partner is
unregistered. -/
def removeNeighbors (value : V) :
    List (CPred V × (String × String)) → List (String × V) → CSPState V →
    Except (CSPState V) (List (String × V) × CSPState V)
  | [], removed, st => .ok (removed, st)
  | c :: rest, removed, st =>
    let neighbor := c.2.2
    if neighbor ≠ "" then
      match st.variables_ neighbor with
      | none => .error st
      | some ndom =>
        if value ∈ ndom then
          removeNeighbors value rest (removed ++ [(neighbor, value)])
            { st with variables_ := updf st.variables_ neighbor (some (ndom.erase value)) }
        else
          removeNeighbors value rest removed st
    else
      removeNeighbors value rest removed st

/-- `CSP.remove_value`: journals every non-chosen value of the variable's own
domain, collapses the domain to the singleton `[value]`, then performs the
forward-checking neighbor pruning.  Note the unguarded
`self.var_constraints[variable]` lookup: it raises `KeyError` for a variable
with no constraints keyed on it, after the domain was already collapsed. -/
def remove_value (st : CSPState V) (variable_ : String) (value : V) :
    Except (CSPState V) (List (String × V) × CSPState V) :=
  match st.variables_ variable_ with
  | none => .error st
  | some dom =>
    let removed := (dom.filter (fun v => v != value)).map (fun v => (variable_, v))
    let st1 := { st with variables_ := updf st.variables_ variable_ (some [value]) }
    match st1.var_constraints variable_ with
    | none => .error st1
    | some entry => removeNeighbors value entry removed st1

end CSP

/-- The heuristic switches handed to `Solver.__init__`. -/
structure SolverCfg where
  domain_heuristic : Bool
  variable_heuristic : Bool
  AC_3 : Bool

namespace Solver

variable {V : Type} [DecidableEq V]

/-- The body of `Solver.arc_reduce`'s `for x_value in self.csp.variables[x]`
loop.  Python iterates the list object by index while `list.remove` mutates it
in place, so after a removal the element that slid into the current position
is skipped; `i` is the iterator's index and `xdom` the current list contents
(kept in sync with the state's entry for `x`).  The partner's domain is
re-read from the state on every iteration, which also captures the `x = y`
aliasing behaviour.  The structural `fuel` argument starts at the initial
domain length; since each step increases `i` and never grows `xdom`, the
`i < xdom.length` test always turns the loop off before fuel can run out. -/
def arcLoop (consistent : CPred V) (x y : String) :
    Nat → Nat → List V → List V → CSPState V → Except (CSPState V) (List V × CSPState V)
  | 0, _, _, removed, st => .ok (removed, st)
  | fuel + 1, i, xdom, removed, st =>
    if h : i < xdom.length then
      let xv := xdom.get ⟨i, h⟩
      match st.variables_ y with
      | none => .error st
      | some ydom =>
        if ydom.all (fun yv => ! consistent xv (some yv)) then
          let xdom1 := xdom.erase xv
          let st1 := { st with variables_ := updf st.variables_ x (some xdom1) }
          if xdom1.length == 0 then .ok (removed ++ [xv], st1)
          else arcLoop consistent x y fuel (i + 1) xdom1 (removed ++ [xv]) st1
        else
          arcLoop consistent x y fuel (i + 1) xdom removed st
    else
      .ok (removed, st)

/-- `Solver.arc_reduce`.  An empty domain for `x` returns `[]` without ever
touching `y` (the generator that reads `variables[y]` is never started). -/
def arc_reduce (st : CSPState V) (x y : String) (consistent : CPred V) :
    Except (CSPState V) (List V × CSPState V) :=
  match st.variables_ x with
  | none => .error st
  | some xdom => arcLoop consistent x y xdom.length 0 xdom [] st

/-- The worklist loop of `Solver.apply_AC3`: the deque is seeded with the flat
constraint list, arcs are only ever popped from the front and never
re-enqueued.  An arc with a non-string endpoint (our `""` encoding of `None`)
is skipped by the `isinstance` guard.  `arc_reduce` always returns a list, so
the `removed is not None` test always holds. -/
def ac3Loop : List (CPred V × (String × String)) → List (String × V) → CSPState V →
    Except (CSPState V) (List (String × V) × CSPState V)
  | [], removed_values, st => .ok (removed_values, st)
  | c :: queue, removed_values, st =>
    if c.2.1 = "" ∨ c.2.2 = "" then ac3Loop queue removed_values st
    else
      match arc_reduce st c.2.1 c.2.2 c.1 with
      | .error e => .error e
      | .ok (removed, st1) =>
        let removed_values1 := removed_values ++ removed.map (fun xv => (c.2.1, xv))
        if (domOf st1 c.2.1).length == 0 then .ok (removed_values1, st1)
        else ac3Loop queue removed_values1 st1

/-- `Solver.apply_AC3`. -/
def apply_AC3 (st : CSPState V) : Except (CSPState V) (List (String × V) × CSPState V) :=
  ac3Loop st.constraints [] st

/-- The scanning loop of `Solver.MRV` (`min_size = float('inf')` is the
`none` of the `Option Nat` accumulator); the strict `<` keeps the earliest
variable among ties, in the order of the current `unassigned_var` list. -/
def mrvLoop : List String → Option String → Option Nat → CSPState V →
    Except (CSPState V) (Option String)
  | [], minVariable, _, _ => .ok minVariable
  | var :: rest, minVariable, min_size, st =>
    match st.variables_ var with
    | none => .error st
    | some dom =>
      if (match min_size with | none => true | some m => dom.length < m) then
        mrvLoop rest (some var) (some dom.length) st
      else
        mrvLoop rest minVariable min_size st

/-- `Solver.MRV`. -/
def MRV (st : CSPState V) : Except (CSPState V) (Option String) :=
  mrvLoop st.unassigned_var none none st

/-- `Solver.select_unassigned_variable`.  When MRV is disabled, indexing
`unassigned_var[0]` raises `IndexError` on an empty list; when MRV returns
`None` (only possible for an empty list) the caller's subsequent
`variables[None]` lookup raises `KeyError`, which we surface here. -/
def select_unassigned_variable (cfg : SolverCfg) (st : CSPState V) :
    Except (CSPState V) String :=
  if cfg.variable_heuristic then
    match MRV st with
    | .error e => .error e
    | .ok (some v) => .ok v
    | .ok none => .error st
  else
    match st.unassigned_var with
    | [] => .error st
    | v :: _ => .ok v

/-- The loop of `count_constraints` inside `Solver.LCV`: a partner is counted
when it is truthy, currently unassigned, and its domain still contains the
candidate value; the domain lookup is only reached (and can only raise) after
the first two tests pass. -/
def countLoop (st : CSPState V) (value : V) :
    List (CPred V × (String × String)) → Nat → Except (CSPState V) Nat
  | [], count => .ok count
  | c :: rest, count =>
    let var := c.2.2
    if var ≠ "" ∧ ¬ CSP.is_assigned st var then
      match st.variables_ var with
      | none => .error st
      | some d => countLoop st value rest (if value ∈ d then count + 1 else count)
    else
      countLoop st value rest count

/-- `count_constraints` of `Solver.LCV`. -/
def count_constraints (st : CSPState V) (variable_ : String) (value : V) :
    Except (CSPState V) Nat :=
  match st.var_constraints variable_ with
  | none => .ok 0
  | some entry => countLoop st value entry 0

/-- Computes the sort keys for `sorted(..., key=count_constraints)` in domain
order, as CPython does before sorting. -/
def keysLoop (st : CSPState V) (variable_ : String) :
    List V → Except (CSPState V) (List (V × Nat))
  | [] => .ok []
  | v :: rest =>
    match count_constraints st variable_ v with
    | .error e => .error e
    | .ok k =>
      match keysLoop st variable_ rest with
      | .error e => .error e
      | .ok keyed => .ok ((v, k) :: keyed)

/-- Stable insertion used to model Python's stable `sorted`: an element goes
before every strictly later element with an equal key. -/
def insertByKey {V : Type} (p : V × Nat) : List (V × Nat) → List (V × Nat)
  | [] => [p]
  | q :: rest => if q.2 < p.2 then q :: insertByKey p rest else p :: q :: rest

/-- Stable sort by key, modelling Python's `sorted(lst, key=...)`. -/
def sortByKey {V : Type} : List (V × Nat) → List (V × Nat)
  | [] => []
  | p :: rest => insertByKey p (sortByKey rest)

/-- `Solver.LCV`. -/
def LCV (st : CSPState V) (variable_ : String) :
    Except (CSPState V) (List V) :=
  match st.variables_ variable_ with
  | none => .error st
  | some dom =>
    match keysLoop st variable_ dom with
    | .error e => .error e
    | .ok keyed => .ok ((sortByKey keyed).map Prod.fst)

/-- `Solver.ordered_domain_value`. -/
def ordered_domain_value (cfg : SolverCfg) (st : CSPState V) (variable_ : String) :
    Except (CSPState V) (List V) :=
  if cfg.domain_heuristic then LCV st variable_
  else
    match st.variables_ variable_ with
    | none => .error st
    | some dom => .ok dom

/-- The `for value in self.ordered_domain_value(variable)` loop of
`Solver.backtrack_solver`.  The recursive call of the solver is abstracted as
`recurse` so the loop is structural in the value list; `removed` is the
branch's accumulated removal journal (seeded with the AC-3 removals of the
enclosing call and reset to `[]` after each failed branch). -/
def tryValues (recurse : CSPState V → Except (CSPState V) (Option (String → Option V) × CSPState V))
    (variable_ : String) :
    List V → List (String × V) → CSPState V →
    Except (CSPState V) (Option (String → Option V) × CSPState V)
  | [], _, st => .ok (none, st)
  | value :: rest, removed, st =>
    if CSP.is_consistent st variable_ value && ! CSP.is_assigned st variable_ then
      match CSP.assign st variable_ value with
      | .error e => .error e
      | .ok (_, st1) =>
        match CSP.remove_value st1 variable_ value with
        | .error e => .error e
        | .ok (rm, st2) =>
          match recurse st2 with
          | .error e => .error e
          | .ok (some result, st3) => .ok (some result, st3)
          | .ok (none, st3) =>
            match CSP.unassign st3 (removed ++ rm) variable_ with
            | .error e => .error e
            | .ok st4 => tryValues recurse variable_ rest [] st4
    else
      tryValues recurse variable_ rest removed st

/-- `Solver.backtrack_solver`, with an explicit recursion budget: each
recursive call of the Python code strictly shrinks the unassigned list, so
any `fuel` larger than the number of unassigned variables reproduces it
exactly; exhausted fuel is reported as an error and never yields an `.ok`
result.  A successful return hands back the `assignments` mapping (Python
returns `list(assignments.items())`, whose entries are exactly that
mapping). -/
def backtrack_solver (cfg : SolverCfg) :
    Nat → CSPState V → Except (CSPState V) (Option (String → Option V) × CSPState V)
  | 0, st => .error st
  | fuel + 1, st =>
    match (if cfg.AC_3 then apply_AC3 st else .ok ([], st)) with
    | .error e => .error e
    | .ok (removed, st1) =>
      if CSP.is_complete st1 then .ok (some st1.assignments, st1)
      else
        match select_unassigned_variable cfg st1 with
        | .error e => .error e
        | .ok variable_ =>
          match ordered_domain_value cfg st1 variable_ with
          | .error e => .error e
          | .ok values => tryValues (backtrack_solver cfg fuel) variable_ values removed st1

end Solver

/-! ## Frame facts about the operations

The constraint stores (`constraints`, `var_constraints`) are never modified
by any solver-phase operation, and the propagation/restoration operations
touch only the domains.  These frame lemmas carry the search invariants
through the recursion. -/
/-- Both constraint stores agree. -/
def SameStores {V : Type} (st st' : CSPState V) : Prop :=
  st'.constraints = st.constraints ∧ st'.var_constraints = st.var_constraints
/-- Everything except the domains agrees (the shape of a propagation step). -/
def OnlyDomains {V : Type} (st st' : CSPState V) : Prop :=
  st'.constraints = st.constraints ∧ st'.var_constraints = st.var_constraints ∧
  st'.assignments = st.assignments ∧ st'.unassigned_var = st.unassigned_var
/-! ## Soundness of the search (claim C1)

`is_consistent` only checks the constraints *keyed on* the variable being
assigned, passing the `[]` sentinel for unassigned partners, and a
constraint is never re-checked when its partner is assigned later.  Sound
final assignments are therefore only guaranteed when every constraint has
its mirrored twin registered, relates two distinct variables, and appears
in the per-variable index — which is how the application registers its
disequality constraints. -/
/-- `a` satisfies every constraint of `cs` whose two endpoints it binds. -/
def SoundAssign {V : Type} (cs : List (CPred V × (String × String)))
    (a : String → Option V) : Prop :=
  ∀ c ∈ cs, ∀ x y : V, a c.2.1 = some x → a c.2.2 = some y → c.1 x (some y) = true
/-- The state's current assignment satisfies all bound registered constraints. -/
def InvA {V : Type} (st : CSPState V) : Prop :=
  SoundAssign st.constraints st.assignments
/-- Every registered constraint has a mirrored twin registered. -/
def SymClosed {V : Type} (st : CSPState V) : Prop :=
  ∀ c ∈ st.constraints, ∃ c' ∈ st.constraints,
    c'.2.1 = c.2.2 ∧ c'.2.2 = c.2.1 ∧ ∀ a b : V, c'.1 a (some b) = c.1 b (some a)
/-- Every registered constraint occurs in the index under its first variable. -/
def KeyedIndex {V : Type} (st : CSPState V) : Prop :=
  ∀ c ∈ st.constraints, ∃ entry, st.var_constraints c.2.1 = some entry ∧ c ∈ entry
/-- No registered constraint relates a variable to itself. -/
def NoSelfArc {V : Type} (st : CSPState V) : Prop :=
  ∀ c ∈ st.constraints, c.2.1 ≠ c.2.2
/-- Soundness conclusions of one solver call: the constraint stores are
untouched, all bound constraints remain satisfied, and a successful result
is exactly the final state's assignment mapping. -/
def SoundOut {V : Type} (st : CSPState V)
    (r : Option (String → Option V)) (st' : CSPState V) : Prop :=
  SameStores st st' ∧ InvA st' ∧ ∀ a, r = some a → a = st'.assignments
/-! ## Exact undo of failed branches (claim C2)

With AC-3 disabled each branch's removal journal is exactly the output of
`remove_value`, and restoring it brings every domain back to its previous
set of values.  (With AC-3 enabled the journal also contains the AC-3
removals made *before* the attempt, so the first failed branch restores
too much — see the counterexample.) -/
/-- Every domain holds the same set of values in both states. -/
def DomSetEq {V : Type} (st st' : CSPState V) : Prop :=
  ∀ w x, x ∈ domOf st' w ↔ x ∈ domOf st w
/-- A pending (unassigned-list) variable has no recorded assignment. -/
def PendingUnbound {V : Type} (st : CSPState V) : Prop :=
  ∀ w ∈ st.unassigned_var, st.assignments w = none
/-- What a failed solver call leaves behind: the same domain sets, the same
assignment mapping, and the same pending variables up to order. -/
def FailOut {V : Type} (st st' : CSPState V) : Prop :=
  DomSetEq st st' ∧ st'.assignments = st.assignments ∧
  st'.unassigned_var.Perm st.unassigned_var
/-! ## MRV selection order (claim C8) -/
/-- The MRV selection rule in the spec's words: the variable with the
smallest current domain size, the earliest in the given list among ties.
The list the code scans is the *current* `unassigned_var` list, which
coincides with first-seen insertion order only until `unassign` re-appends
a backtracked variable at the end. -/
def firstMinBySize {V : Type} (st : CSPState V) : List String → Option String
  | [] => none
  | v :: rest =>
    match firstMinBySize st rest with
    | none => some v
    | some b => if (domOf st v).length ≤ (domOf st b).length then some v else some b
/-- Combines a best-so-far variable with the choice on the rest of the list,
mirroring the strict `<` update of the scanning loop. -/
def keepMin {V : Type} (st : CSPState V) (b : String) : Option String → String
  | none => b
  | some c => if (domOf st c).length < (domOf st b).length then c else b
/-! ## The assignment-state invariant (claim C9) -/
/-- The public mutators the claim quantifies over. -/
inductive CSPOp (V : Type) where
  | addVar (variable_ : String) (domain : List V)
  | assignVar (variable_ : String) (value : V)
  | unassignVar (log : List (String × V)) (variable_ : String)
/-- Runs one public operation (the Boolean result of `assign` is dropped). -/
def runOp {V : Type} [DecidableEq V] (st : CSPState V) :
    CSPOp V → Except (CSPState V) (CSPState V)
  | .addVar v d => .ok (CSP.add_variable st v d)
  | .assignVar v val =>
    match CSP.assign st v val with
    | .error e => .error e
    | .ok (_, s) => .ok s
  | .unassignVar log v => CSP.unassign st log v
/-- Runs a sequence of public operations, stopping at the first raise. -/
def runOps {V : Type} [DecidableEq V] :
    CSPState V → List (CSPOp V) → Except (CSPState V) (CSPState V)
  | st, [] => .ok st
  | st, op :: rest =>
    match runOp st op with
    | .error e => .error e
    | .ok s => runOps s rest
/-- A sequence is safe when `add_variable` is only applied to fresh names and
no operation raises. -/
def safeOps {V : Type} [DecidableEq V] : CSPState V → List (CSPOp V) → Bool
  | _, [] => true
  | st, op :: rest =>
    (match op with
     | .addVar v _ => (st.variables_ v).isNone
     | _ => true) &&
    (match runOp st op with
     | .error _ => false
     | .ok s => safeOps s rest)
/-- The claim's invariant: every registered variable is either pending
(exactly one occurrence in `unassigned_var`, no mapping entry) or assigned
(no occurrence, a mapping entry) — never both, never neither. -/
def ClaimInv {V : Type} (st : CSPState V) : Prop :=
  ∀ v, (st.variables_ v).isSome →
    ((st.unassigned_var.count v = 1 ∧ st.assignments v = none) ∨
     (v ∉ st.unassigned_var ∧ (st.assignments v).isSome))
/-- Auxiliary strengthening for the induction: the pending list and the
mapping mention only registered variables. -/
def AuxInv {V : Type} (st : CSPState V) : Prop :=
  ClaimInv st ∧ (∀ v ∈ st.unassigned_var, (st.variables_ v).isSome) ∧
  (∀ v, (st.assignments v).isSome → (st.variables_ v).isSome)
/-! ## Claim theorems: concrete models, extractors -/
/-- Plain backtracking configuration (all heuristics off). -/
def cfgPlain : SolverCfg := ⟨false, false, false⟩
/-- Configuration with only AC-3 enabled. -/
def cfgAC3 : SolverCfg := ⟨false, false, true⟩
/-- Configuration with only MRV enabled. -/
def cfgMRV : SolverCfg := ⟨false, true, false⟩
/-- Final state of a solver run (the error state if it raised). -/
def okStOf {V : Type} (e : Except (CSPState V) (Option (String → Option V) × CSPState V)) :
    CSPState V :=
  match e with
  | .ok (_, s) => s
  | .error s => s
/-- The assignment of a successful solver run (empty otherwise). -/
def okAsgOf {V : Type} (e : Except (CSPState V) (Option (String → Option V) × CSPState V)) :
    String → Option V :=
  match e with
  | .ok (some a, _) => a
  | _ => fun _ => none
/-- State component of a `remove_value`/`arc_reduce`-shaped result. -/
def rmStOf {V : Type} {L : Type} (e : Except (CSPState V) (L × CSPState V)) :
    CSPState V :=
  match e with
  | .ok (_, s) => s
  | .error s => s
/-- Log component of a `remove_value`/`apply_AC3`-shaped result. -/
def rmLogOf {V : Type} {L : Type} [Inhabited L] (e : Except (CSPState V) (L × CSPState V)) : L :=
  match e with
  | .ok (r, _) => r
  | .error _ => default
/-- State of an `unassign`/`restore_value`-shaped result. -/
def unStOf {V : Type} (e : Except (CSPState V) (CSPState V)) : CSPState V :=
  match e with
  | .ok s => s
  | .error s => s
/-- State of an `assign`-shaped result. -/
def asgStOf {V : Type} (e : Except (CSPState V) (Bool × CSPState V)) : CSPState V :=
  match e with
  | .ok (_, s) => s
  | .error s => s
/-- Bool of an `assign`-shaped result. -/
def asgBOf {V : Type} (e : Except (CSPState V) (Bool × CSPState V)) : Bool :=
  match e with
  | .ok (b, _) => b
  | .error _ => false
/-- A predicate that accepts only the unassigned sentinel (`b == []`). -/
def sentinelOnly : CPred Nat := fun _ ob => ob == none
/-- The always-true predicate. -/
def alwaysTrue : CPred Nat := fun _ _ => true
/-- The always-false predicate. -/
def alwaysFalse : CPred Nat := fun _ _ => false
/-- The disequality predicate of the application (`x != y`, where `y` may be
the `[]` sentinel — a color never equals the empty list in Python, so the
sentinel always passes). -/
def diseqN : CPred Nat := fun a ob => ob != some a
/-- Disequality over `Bool` values. -/
def diseqB : CPred Bool := fun a ob => ob != some a
/-- A predicate that rejects the unassigned sentinel. -/
def rejectsSentinel : CPred Nat := fun _ ob => ob.isSome
/-- Model for the C1 counterexample: a one-directional constraint whose
predicate passes the sentinel but fails the eventually assigned pair, plus a
vacuous reverse constraint so `remove_value` does not raise. -/
def c1St : CSPState Nat :=
  CSP.add_constraint (CSP.add_constraint
    (CSP.add_variable (CSP.add_variable (CSP.init Nat) "A" [1]) "B" [2])
    sentinelOnly ("A", "B")) alwaysTrue ("B", "A")
def c1Run : Except (CSPState Nat) (Option (String → Option Nat) × CSPState Nat) :=
  Solver.backtrack_solver cfgPlain 5 c1St
/-- Model for the C1 amended-claim witness: two variables with mirrored
disequality constraints, as the application registers them. -/
def c1wSt : CSPState Bool :=
  CSP.add_constraint (CSP.add_constraint
    (CSP.add_variable (CSP.add_variable (CSP.init Bool) "A" [true, false])
      "B" [true, false])
    diseqB ("A", "B")) diseqB ("B", "A")
def c1wRun : Except (CSPState Bool) (Option (String → Option Bool) × CSPState Bool) :=
  Solver.backtrack_solver cfgPlain 5 c1wSt
/-- Model for the C2 counterexample (run with AC-3 on): the root call's AC-3
phase prunes `2` from A's domain and empties B's, the single branch `A := 1`
fails, and the undo restores the AC-3 removals made *before* the attempt. -/
def c2St : CSPState Nat :=
  CSP.add_constraint (CSP.add_constraint
    (CSP.add_variable (CSP.add_variable (CSP.init Nat) "A" [1, 2]) "B" [2])
    diseqN ("A", "B")) sentinelOnly ("B", "A")
def c2Prop : Except (CSPState Nat) (List (String × Nat) × CSPState Nat) :=
  Solver.apply_AC3 c2St
def c2Stp : CSPState Nat := rmStOf c2Prop
def c2Log : List (String × Nat) := rmLogOf c2Prop
def c2St1 : CSPState Nat := asgStOf (CSP.assign c2Stp "A" 1)
def c2Rm : Except (CSPState Nat) (List (String × Nat) × CSPState Nat) :=
  CSP.remove_value c2St1 "A" 1
def c2St2 : CSPState Nat := rmStOf c2Rm
def c2St3 : CSPState Nat := okStOf (Solver.backtrack_solver cfgAC3 4 c2St2)
def c2St4 : CSPState Nat := unStOf (CSP.unassign c2St3 (c2Log ++ rmLogOf c2Rm) "A")
/-- Model for the C2 amended-claim witness (AC-3 off): assigning `A := 1`
forward-checks `1` out of B's domain, the child call fails on B's empty
domain, and the undo restores both domains exactly. -/
def c2wSt : CSPState Nat :=
  CSP.add_constraint (CSP.add_constraint
    (CSP.add_variable (CSP.add_variable (CSP.init Nat) "A" [1]) "B" [1])
    diseqN ("A", "B")) diseqN ("B", "A")
def c2wAs : Except (CSPState Nat) (Bool × CSPState Nat) := CSP.assign c2wSt "A" 1
def c2wSt1 : CSPState Nat := asgStOf c2wAs
def c2wRm : Except (CSPState Nat) (List (String × Nat) × CSPState Nat) :=
  CSP.remove_value c2wSt1 "A" 1
def c2wSt2 : CSPState Nat := rmStOf c2wRm
def c2wSt3 : CSPState Nat := okStOf (Solver.backtrack_solver cfgPlain 3 c2wSt2)
def c2wSt4 : CSPState Nat := unStOf (CSP.unassign c2wSt3 (rmLogOf c2wRm) "A")
/-- Model for C3: two consecutive unsupported values in X's domain. -/
def c3St : CSPState Nat :=
  CSP.add_variable (CSP.add_variable (CSP.init Nat) "X" [1, 2]) "Y" [3]
def c3Run : Except (CSPState Nat) (List Nat × CSPState Nat) :=
  Solver.arc_reduce c3St "X" "Y" alwaysFalse
/-- Model for C5's counterexample: one constraint whose predicate rejects the
unassigned sentinel. -/
def c5St : CSPState Nat :=
  CSP.add_constraint
    (CSP.add_variable (CSP.add_variable (CSP.init Nat) "A" [1]) "B" [2])
    rejectsSentinel ("A", "B")
/-- Model for C6: a second `add_constraint` call for a new pair (A, C) after
one for (A, B) was registered with a different predicate. -/
def c6St : CSPState Nat :=
  CSP.add_constraint (CSP.add_constraint (CSP.init Nat) alwaysTrue ("A", "B"))
    alwaysFalse ("A", "C")
/-- Model for C7's counterexample: a registered variable with no constraints
keyed on it. -/
def c7St : CSPState Nat := CSP.add_variable (CSP.init Nat) "A" [1]
/-- Models for C8: two tied variables; after assigning and unassigning A, the
pending list is `["B", "A"]` although A was inserted (first seen) first. -/
def c8St0 : CSPState Nat :=
  CSP.add_variable (CSP.add_variable (CSP.init Nat) "A" [1, 2]) "B" [1, 2]
def c8St1 : CSPState Nat := asgStOf (CSP.assign c8St0 "A" 1)
def c8St2 : CSPState Nat := unStOf (CSP.unassign c8St1 [] "A")
/-- Model for C9's counterexample: `add_variable` twice for the same name. -/
def c9Bad : CSPState Nat :=
  unStOf (runOps (CSP.init Nat) [.addVar "A" [1], .addVar "A" [1]])
/-- Safe operation sequence for the C9 witness. -/
def c9wOps : List (CSPOp Nat) :=
  [.addVar "A" [1, 2], .addVar "B" [1], .assignVar "A" 1, .unassignVar [] "A"]
def c9wSt : CSPState Nat := unStOf (runOps (CSP.init Nat) c9wOps)

theorem onlyDomains_refl {V : Type} (st : CSPState V) : OnlyDomains st st :=
  ⟨rfl, rfl, rfl, rfl⟩
theorem onlyDomains_trans {V : Type} {s1 s2 s3 : CSPState V}
    (h1 : OnlyDomains s1 s2) (h2 : OnlyDomains s2 s3) : OnlyDomains s1 s3 :=
  ⟨h2.1.trans h1.1, h2.2.1.trans h1.2.1, h2.2.2.1.trans h1.2.2.1, h2.2.2.2.trans h1.2.2.2⟩
theorem onlyDomains_sameStores {V : Type} {s1 s2 : CSPState V}
    (h : OnlyDomains s1 s2) : SameStores s1 s2 :=
  ⟨h.1, h.2.1⟩
@[simp] theorem updf_apply {α : Type} (f : String → Option α) (k x : String) (v : Option α) :
    updf f k v x = if x = k then v else f x := rfl
theorem arcLoop_onlyDomains {V : Type} [DecidableEq V] (consistent : CPred V) (x y : String) :
    ∀ (fuel i : Nat) (xdom removed : List V) (st : CSPState V) (rm : List V) (st' : CSPState V),
      Solver.arcLoop consistent x y fuel i xdom removed st = .ok (rm, st') →
      OnlyDomains st st' := by
  intro fuel
  induction fuel with
  | zero =>
    intro i xdom removed st rm st' h
    simp only [Solver.arcLoop] at h
    cases h
    exact onlyDomains_refl st
  | succ fuel ih =>
    intro i xdom removed st rm st' h
    simp only [Solver.arcLoop] at h
    split at h
    · split at h
      · exact absurd h (by simp)
      · split at h
        · split at h
          · cases h; exact ⟨rfl, rfl, rfl, rfl⟩
          · refine onlyDomains_trans ?_ (ih _ _ _ _ _ _ h)
            exact ⟨rfl, rfl, rfl, rfl⟩
        · exact ih _ _ _ _ _ _ h
    · cases h; exact onlyDomains_refl st
theorem arc_reduce_onlyDomains {V : Type} [DecidableEq V] {st : CSPState V} {x y : String}
    {consistent : CPred V} {rm : List V} {st' : CSPState V}
    (h : Solver.arc_reduce st x y consistent = .ok (rm, st')) : OnlyDomains st st' := by
  unfold Solver.arc_reduce at h
  split at h
  · exact absurd h (by simp)
  · exact arcLoop_onlyDomains consistent x y _ _ _ _ _ _ _ h
theorem ac3Loop_onlyDomains {V : Type} [DecidableEq V] :
    ∀ (queue : List (CPred V × (String × String))) (acc : List (String × V))
      (st : CSPState V) (rm : List (String × V)) (st' : CSPState V),
      Solver.ac3Loop queue acc st = .ok (rm, st') → OnlyDomains st st' := by
  intro queue
  induction queue with
  | nil =>
    intro acc st rm st' h
    simp only [Solver.ac3Loop] at h
    cases h
    exact onlyDomains_refl st
  | cons c rest ih =>
    intro acc st rm st' h
    simp only [Solver.ac3Loop] at h
    split at h
    · exact ih _ _ _ _ h
    · split at h
      · exact absurd h (by simp)
      · rename_i st1 harc
        split at h
        · cases h
          exact arc_reduce_onlyDomains harc
        · exact onlyDomains_trans (arc_reduce_onlyDomains harc) (ih _ _ _ _ h)
theorem apply_AC3_onlyDomains {V : Type} [DecidableEq V] {st : CSPState V}
    {rm : List (String × V)} {st' : CSPState V}
    (h : Solver.apply_AC3 st = .ok (rm, st')) : OnlyDomains st st' :=
  ac3Loop_onlyDomains _ _ _ _ _ h
theorem restore_value_onlyDomains {V : Type} [DecidableEq V] :
    ∀ (lst : List (String × V)) (st st' : CSPState V),
      CSP.restore_value st lst = .ok st' → OnlyDomains st st' := by
  intro lst
  induction lst with
  | nil =>
    intro st st' h
    simp only [CSP.restore_value] at h
    cases h
    exact onlyDomains_refl st
  | cons p rest ih =>
    intro st st' h
    simp only [CSP.restore_value] at h
    split at h
    · exact absurd h (by simp)
    · refine onlyDomains_trans ?_ (ih _ _ h)
      exact ⟨rfl, rfl, rfl, rfl⟩
theorem removeNeighbors_onlyDomains {V : Type} [DecidableEq V] {value : V} :
    ∀ (entry : List (CPred V × (String × String))) (acc : List (String × V))
      (st : CSPState V) (rm : List (String × V)) (st' : CSPState V),
      CSP.removeNeighbors value entry acc st = .ok (rm, st') → OnlyDomains st st' := by
  intro entry
  induction entry with
  | nil =>
    intro acc st rm st' h
    simp only [CSP.removeNeighbors] at h
    cases h
    exact onlyDomains_refl st
  | cons c rest ih =>
    intro acc st rm st' h
    simp only [CSP.removeNeighbors] at h
    split at h
    · split at h
      · exact absurd h (by simp)
      · split at h
        · refine onlyDomains_trans ?_ (ih _ _ _ _ h)
          exact ⟨rfl, rfl, rfl, rfl⟩
        · exact ih _ _ _ _ h
    · exact ih _ _ _ _ h
theorem remove_value_onlyDomains {V : Type} [DecidableEq V] {st : CSPState V}
    {v : String} {value : V} {rm : List (String × V)} {st' : CSPState V}
    (h : CSP.remove_value st v value = .ok (rm, st')) : OnlyDomains st st' := by
  simp only [CSP.remove_value] at h
  split at h
  · exact absurd h (by simp)
  · split at h
    · exact absurd h (by simp)
    · refine onlyDomains_trans ?_ (removeNeighbors_onlyDomains _ _ _ _ _ h)
      exact ⟨rfl, rfl, rfl, rfl⟩
theorem assign_ok {V : Type} [DecidableEq V] {st : CSPState V} {v : String} {val : V}
    {b : Bool} {st' : CSPState V} (h : CSP.assign st v val = .ok (b, st')) :
    st.unassigned_var.contains v = true ∧
    st' = { st with
            assignments := updf st.assignments v (some val)
            unassigned_var := st.unassigned_var.erase v
            assignments_number := st.assignments_number + 1 } := by
  simp only [CSP.assign] at h
  split at h
  · cases h
    exact ⟨by assumption, rfl⟩
  · exact absurd h (by simp)
theorem unassign_ok {V : Type} [DecidableEq V] {st : CSPState V} {log : List (String × V)}
    {v : String} {st' : CSPState V} (h : CSP.unassign st log v = .ok st')
    (hv : (st.assignments v).isSome) :
    CSP.restore_value
      { st with
        assignments := updf st.assignments v none
        unassigned_var := st.unassigned_var ++ [v] } log = .ok st' := by
  simp only [CSP.unassign] at h
  rw [if_pos hv] at h
  exact h
theorem sameStores_trans {V : Type} {s1 s2 s3 : CSPState V}
    (h1 : SameStores s1 s2) (h2 : SameStores s2 s3) : SameStores s1 s3 :=
  ⟨h2.1.trans h1.1, h2.2.trans h1.2⟩
theorem symClosed_transport {V : Type} {st st' : CSPState V}
    (hs : SameStores st st') (h : SymClosed st) : SymClosed st' := by
  unfold SymClosed at h ⊢
  rw [hs.1]
  exact h
theorem keyedIndex_transport {V : Type} {st st' : CSPState V}
    (hs : SameStores st st') (h : KeyedIndex st) : KeyedIndex st' := by
  unfold KeyedIndex at h ⊢
  rw [hs.1, hs.2]
  exact h
theorem noSelfArc_transport {V : Type} {st st' : CSPState V}
    (hs : SameStores st st') (h : NoSelfArc st) : NoSelfArc st' := by
  unfold NoSelfArc at h ⊢
  rw [hs.1]
  exact h
theorem invA_of_onlyDomains {V : Type} {st st' : CSPState V}
    (hod : OnlyDomains st st') (h : InvA st) : InvA st' := by
  unfold InvA SoundAssign at h ⊢
  rw [hod.1, hod.2.2.1]
  exact h
/-- The key preservation step: assigning a value that `is_consistent`
accepted keeps all bound constraints satisfied, thanks to the mirrored
twin of every constraint pointing at the newly assigned variable. -/
theorem invA_assign {V : Type} [DecidableEq V] {st : CSPState V} {v : String} {val : V}
    {b : Bool} {st' : CSPState V}
    (hsym : SymClosed st) (hkey : KeyedIndex st) (hns : NoSelfArc st)
    (hinv : InvA st) (hc : CSP.is_consistent st v val = true)
    (h : CSP.assign st v val = .ok (b, st')) : InvA st' := by
  obtain ⟨-, rfl⟩ := assign_ok h
  intro c hmem x y hx hy
  simp only [updf_apply] at hx hy
  by_cases h1 : c.2.1 = v
  · by_cases h2 : c.2.2 = v
    · exact absurd (h1.trans h2.symm) (hns c hmem)
    · rw [if_pos h1] at hx
      rw [if_neg h2] at hy
      obtain rfl : val = x := by injection hx
      obtain ⟨entry, hent, hcent⟩ := hkey c hmem
      rw [h1] at hent
      unfold CSP.is_consistent at hc
      rw [hent] at hc
      rw [List.all_eq_true] at hc
      have := hc c hcent
      rw [hy] at this
      exact this
  · by_cases h2 : c.2.2 = v
    · rw [if_neg h1] at hx
      rw [if_pos h2] at hy
      obtain rfl : val = y := by injection hy
      obtain ⟨c', hmem', e1, e2, law⟩ := hsym c hmem
      obtain ⟨entry, hent, hcent⟩ := hkey c' hmem'
      rw [e1, h2] at hent
      unfold CSP.is_consistent at hc
      rw [hent] at hc
      rw [List.all_eq_true] at hc
      have hch := hc c' hcent
      rw [e2, hx] at hch
      rw [law val x] at hch
      exact hch
    · rw [if_neg h1] at hx
      rw [if_neg h2] at hy
      exact hinv c hmem x y hx hy
theorem unassign_sameStores {V : Type} [DecidableEq V] {st : CSPState V}
    {log : List (String × V)} {v : String} {st' : CSPState V}
    (h : CSP.unassign st log v = .ok st') : SameStores st st' := by
  unfold CSP.unassign at h
  split at h
  · have hod := restore_value_onlyDomains _ _ _ h
    exact ⟨hod.1, hod.2.1⟩
  · cases h
    exact ⟨rfl, rfl⟩
theorem invA_unassign {V : Type} [DecidableEq V] {st : CSPState V}
    {log : List (String × V)} {v : String} {st' : CSPState V}
    (h : CSP.unassign st log v = .ok st') (hinv : InvA st) : InvA st' := by
  unfold CSP.unassign at h
  split at h
  · have hod := restore_value_onlyDomains _ _ _ h
    intro c hmem x y hx hy
    rw [hod.1] at hmem
    rw [hod.2.2.1] at hx hy
    simp only [updf_apply] at hx hy
    split at hx
    · exact absurd hx (by simp)
    · split at hy
      · exact absurd hy (by simp)
      · exact hinv c hmem x y hx hy
  · cases h
    exact hinv
theorem tryValues_sound_core {V : Type} [DecidableEq V]
    (recurse : CSPState V → Except (CSPState V) (Option (String → Option V) × CSPState V))
    (hrec : ∀ st r st', SymClosed st → KeyedIndex st → NoSelfArc st → InvA st →
      recurse st = .ok (r, st') → SoundOut st r st')
    (v : String) :
    ∀ (values : List V) (removed : List (String × V)) (st : CSPState V)
      (r : Option (String → Option V)) (st' : CSPState V),
      SymClosed st → KeyedIndex st → NoSelfArc st → InvA st →
      Solver.tryValues recurse v values removed st = .ok (r, st') →
      SoundOut st r st' := by
  intro values
  induction values with
  | nil =>
    intro removed st r st' _ _ _ hinv h
    simp only [Solver.tryValues] at h
    cases h
    exact ⟨⟨rfl, rfl⟩, hinv, fun a ha => Option.noConfusion ha⟩
  | cons value rest ih =>
    intro removed st r st' hsym hkey hns hinv h
    simp only [Solver.tryValues] at h
    split at h
    · rename_i hguard
      rw [Bool.and_eq_true] at hguard
      split at h
      · exact absurd h (by simp)
      · rename_i b st1 hassign
        have hinv1 : InvA st1 := invA_assign hsym hkey hns hinv hguard.1 hassign
        have hss1 : SameStores st st1 := by
          obtain ⟨-, rfl⟩ := assign_ok hassign
          exact ⟨rfl, rfl⟩
        split at h
        · exact absurd h (by simp)
        · rename_i rm st2 hrm
          have hod2 := remove_value_onlyDomains hrm
          have hss2 : SameStores st st2 :=
            sameStores_trans hss1 (onlyDomains_sameStores hod2)
          have hinv2 : InvA st2 := invA_of_onlyDomains hod2 hinv1
          have hsym2 := symClosed_transport hss2 hsym
          have hkey2 := keyedIndex_transport hss2 hkey
          have hns2 := noSelfArc_transport hss2 hns
          split at h
          · exact absurd h (by simp)
          · rename_i result st3 hcall
            cases h
            obtain ⟨hss3, hinv3, hval3⟩ := hrec st2 _ st' hsym2 hkey2 hns2 hinv2 hcall
            exact ⟨sameStores_trans hss2 hss3, hinv3, hval3⟩
          · rename_i st3 hcall
            obtain ⟨hss3, hinv3, -⟩ := hrec st2 _ st3 hsym2 hkey2 hns2 hinv2 hcall
            have hssb : SameStores st st3 := sameStores_trans hss2 hss3
            split at h
            · exact absurd h (by simp)
            · rename_i st4 hun
              have hss4 : SameStores st st4 :=
                sameStores_trans hssb (unassign_sameStores hun)
              have hinv4 : InvA st4 := invA_unassign hun hinv3
              have hout := ih [] st4 r st' (symClosed_transport hss4 hsym)
                (keyedIndex_transport hss4 hkey) (noSelfArc_transport hss4 hns) hinv4 h
              exact ⟨sameStores_trans hss4 hout.1, hout.2.1, hout.2.2⟩
    · exact ih removed st r st' hsym hkey hns hinv h
theorem backtrack_sound_core {V : Type} [DecidableEq V] (cfg : SolverCfg) :
    ∀ (fuel : Nat) (st : CSPState V) (r : Option (String → Option V)) (st' : CSPState V),
      SymClosed st → KeyedIndex st → NoSelfArc st → InvA st →
      Solver.backtrack_solver cfg fuel st = .ok (r, st') →
      SoundOut st r st' := by
  intro fuel
  induction fuel with
  | zero =>
    intro st r st' _ _ _ _ h
    exact absurd h (by simp [Solver.backtrack_solver])
  | succ fuel ih =>
    intro st r st' hsym hkey hns hinv h
    simp only [Solver.backtrack_solver] at h
    split at h
    · exact absurd h (by simp)
    · rename_i removed st1 hprop
      have hod1 : OnlyDomains st st1 := by
        by_cases hac : cfg.AC_3
        · rw [if_pos hac] at hprop
          exact apply_AC3_onlyDomains hprop
        · rw [if_neg hac] at hprop
          cases hprop
          exact onlyDomains_refl st
      have hss1 : SameStores st st1 := onlyDomains_sameStores hod1
      have hinv1 : InvA st1 := invA_of_onlyDomains hod1 hinv
      have hsym1 := symClosed_transport hss1 hsym
      have hkey1 := keyedIndex_transport hss1 hkey
      have hns1 := noSelfArc_transport hss1 hns
      split at h
      · cases h
        exact ⟨hss1, hinv1, fun a ha => by cases ha; rfl⟩
      · split at h
        · exact absurd h (by simp)
        · rename_i v hsel
          split at h
          · exact absurd h (by simp)
          · rename_i values hord
            have hout := tryValues_sound_core (Solver.backtrack_solver cfg fuel)
              (fun s rr s' a1 a2 a3 a4 hh => ih s rr s' a1 a2 a3 a4 hh)
              v values removed st1 r st' hsym1 hkey1 hns1 hinv1 h
            exact ⟨sameStores_trans hss1 hout.1, hout.2.1, hout.2.2⟩
theorem failOut_refl {V : Type} (st : CSPState V) : FailOut st st :=
  ⟨fun _ _ => Iff.rfl, rfl, List.Perm.refl _⟩
theorem failOut_trans {V : Type} {s1 s2 s3 : CSPState V}
    (h1 : FailOut s1 s2) (h2 : FailOut s2 s3) : FailOut s1 s3 :=
  ⟨fun w x => (h2.1 w x).trans (h1.1 w x), h2.2.1.trans h1.2.1,
    h2.2.2.trans h1.2.2⟩
theorem domOf_updf_self {V : Type} (st : CSPState V) (k : String) (d : List V) :
    domOf { st with variables_ := updf st.variables_ k (some d) } k = d := by
  simp [domOf, updf]
theorem domOf_updf_of_ne {V : Type} (st : CSPState V) {w k : String} (h : w ≠ k)
    (o : Option (List V)) :
    domOf { st with variables_ := updf st.variables_ k o } w = domOf st w := by
  simp [domOf, updf, h]
theorem domOf_eq_of_lookup {V : Type} {st : CSPState V} {w : String} {d : List V}
    (h : st.variables_ w = some d) : domOf st w = d := by
  simp [domOf, h]
theorem mem_erase_iff_or {V : Type} [DecidableEq V] {x value : V} {l : List V}
    (hval : value ∈ l) : (x ∈ l.erase value ∨ x = value) ↔ x ∈ l := by
  constructor
  · rintro (h | rfl)
    · exact List.mem_of_mem_erase h
    · exact hval
  · intro h
    by_cases hx : x = value
    · exact Or.inr hx
    · exact Or.inl ((List.mem_erase_of_ne hx).mpr h)
theorem removeNeighbors_journal {V : Type} [DecidableEq V] {value : V} :
    ∀ (entry : List (CPred V × (String × String))) (acc : List (String × V))
      (st : CSPState V) (rm : List (String × V)) (st' : CSPState V),
      CSP.removeNeighbors value entry acc st = .ok (rm, st') →
      ∀ w x, (x ∈ domOf st' w ∨ (w, x) ∈ rm) ↔ (x ∈ domOf st w ∨ (w, x) ∈ acc) := by
  intro entry
  induction entry with
  | nil =>
    intro acc st rm st' h w x
    simp only [CSP.removeNeighbors] at h
    cases h
    exact Iff.rfl
  | cons c rest ih =>
    intro acc st rm st' h w x
    simp only [CSP.removeNeighbors] at h
    split at h
    · split at h
      · exact absurd h (by simp)
      · rename_i ndom hdom
        split at h
        · rename_i hval
          rw [ih _ _ _ _ h w x]
          by_cases hw : w = c.2.2
          · have e1 : domOf { st with
                variables_ := updf st.variables_ c.2.2 (some (ndom.erase value)) } w =
                ndom.erase value := by
              rw [hw]; exact domOf_updf_self ..
            have e2 : domOf st w = ndom := by
              rw [hw]; exact domOf_eq_of_lookup hdom
            rw [e1, e2]
            have hiff := mem_erase_iff_or (x := x) hval
            simp only [List.mem_append, List.mem_singleton, Prod.ext_iff, hw,
              eq_self_iff_true, true_and]
            tauto
          · have e1 : domOf { st with
                variables_ := updf st.variables_ c.2.2 (some (ndom.erase value)) } w =
                domOf st w := domOf_updf_of_ne st hw _
            rw [e1]
            simp only [List.mem_append, List.mem_singleton, Prod.ext_iff]
            have hno : ¬(w = c.2.2 ∧ x = value) := fun hc => hw hc.1
            tauto
        · exact ih _ _ _ _ h w x
    · exact ih _ _ _ _ h w x
theorem remove_value_journal {V : Type} [DecidableEq V] {st : CSPState V}
    {v : String} {value : V} {rm : List (String × V)} {st' : CSPState V}
    (h : CSP.remove_value st v value = .ok (rm, st')) :
    ∀ w x, (x ∈ domOf st' w ∨ (w, x) ∈ rm) ↔
      (x ∈ domOf st w ∨ (w = v ∧ x = value)) := by
  intro w x
  simp only [CSP.remove_value] at h
  split at h
  · exact absurd h (by simp)
  · rename_i dom hdom
    split at h
    · exact absurd h (by simp)
    · rw [removeNeighbors_journal _ _ _ _ _ h w x]
      have hexiff : ((w, x) ∈ (dom.filter (fun z => z != value)).map (fun z => (v, z))) ↔
          (w = v ∧ (x ∈ dom ∧ ¬ x = value)) := by
        simp only [List.mem_map, List.mem_filter, bne_iff_ne, ne_eq, Prod.ext_iff]
        constructor
        · rintro ⟨z, ⟨hz, hne⟩, hvw, rfl⟩
          exact ⟨hvw.symm, hz, hne⟩
        · rintro ⟨rfl, hx, hne⟩
          exact ⟨x, ⟨hx, hne⟩, rfl, rfl⟩
      rw [hexiff]
      by_cases hw : w = v
      · have e1 : domOf { st with
            variables_ := updf st.variables_ v (some [value]) } w = [value] := by
          rw [hw]; exact domOf_updf_self ..
        have e2 : domOf st w = dom := by
          rw [hw]; exact domOf_eq_of_lookup hdom
        rw [e1, e2]
        simp only [List.mem_singleton, hw, eq_self_iff_true, true_and]
        by_cases hx : x = value <;> tauto
      · have e1 : domOf { st with
            variables_ := updf st.variables_ v (some [value]) } w = domOf st w :=
          domOf_updf_of_ne st hw _
        rw [e1]
        have h1 : ¬(w = v ∧ x = value) := fun hc => hw hc.1
        have h2 : ¬(w = v ∧ (x ∈ dom ∧ ¬ x = value)) := fun hc => hw hc.1
        tauto
theorem restore_value_mem {V : Type} [DecidableEq V] :
    ∀ (lst : List (String × V)) (st st' : CSPState V),
      CSP.restore_value st lst = .ok st' →
      ∀ w x, x ∈ domOf st' w ↔ (x ∈ domOf st w ∨ (w, x) ∈ lst) := by
  intro lst
  induction lst with
  | nil =>
    intro st st' h w x
    simp only [CSP.restore_value] at h
    cases h
    simp
  | cons p rest ih =>
    intro st st' h w x
    simp only [CSP.restore_value] at h
    split at h
    · exact absurd h (by simp)
    · rename_i d hdom
      rw [ih _ _ h w x]
      by_cases hw : w = p.1
      · have e1 : domOf { st with
            variables_ := updf st.variables_ p.1 (some (d ++ [p.2])) } w =
            d ++ [p.2] := by
          rw [hw]; exact domOf_updf_self ..
        have e2 : domOf st w = d := by
          rw [hw]; exact domOf_eq_of_lookup hdom
        rw [e1, e2]
        simp only [List.mem_append, List.mem_singleton, List.mem_cons, Prod.ext_iff, hw,
          eq_self_iff_true, true_and]
        tauto
      · have e1 : domOf { st with
            variables_ := updf st.variables_ p.1 (some (d ++ [p.2])) } w =
            domOf st w := domOf_updf_of_ne st hw _
        rw [e1]
        simp only [List.mem_cons, Prod.ext_iff]
        have hno : ¬(w = p.1 ∧ x = p.2) := fun hc => hw hc.1
        tauto
theorem insertByKey_perm {V : Type} (p : V × Nat) :
    ∀ l : List (V × Nat), (Solver.insertByKey p l).Perm (p :: l) := by
  intro l
  induction l with
  | nil => simp [Solver.insertByKey]
  | cons q rest ih =>
    simp only [Solver.insertByKey]
    split
    · exact (ih.cons q).trans (List.Perm.swap p q rest)
    · exact List.Perm.refl _
theorem sortByKey_perm {V : Type} :
    ∀ l : List (V × Nat), (Solver.sortByKey l).Perm l := by
  intro l
  induction l with
  | nil => exact List.Perm.refl _
  | cons p rest ih =>
    exact (insertByKey_perm p (Solver.sortByKey rest)).trans (ih.cons p)
theorem keysLoop_map_fst {V : Type} [DecidableEq V] {st : CSPState V} {v : String} :
    ∀ (dom : List V) (keyed : List (V × Nat)),
      Solver.keysLoop st v dom = .ok keyed → keyed.map Prod.fst = dom := by
  intro dom
  induction dom with
  | nil =>
    intro keyed h
    simp only [Solver.keysLoop] at h
    cases h
    rfl
  | cons z rest ih =>
    intro keyed h
    simp only [Solver.keysLoop] at h
    split at h
    · exact absurd h (by simp)
    · split at h
      · exact absurd h (by simp)
      · rename_i keyed' hrest
        cases h
        simp [ih keyed' hrest]
theorem LCV_mem {V : Type} [DecidableEq V] {st : CSPState V} {v : String}
    {values : List V} (h : Solver.LCV st v = .ok values) :
    ∀ x ∈ values, x ∈ domOf st v := by
  unfold Solver.LCV at h
  split at h
  · exact absurd h (by simp)
  · rename_i dom hdom
    split at h
    · exact absurd h (by simp)
    · rename_i keyed hkeys
      cases h
      intro x hx
      rw [List.mem_map] at hx
      obtain ⟨p, hp, rfl⟩ := hx
      rw [domOf_eq_of_lookup hdom, ← keysLoop_map_fst dom keyed hkeys]
      exact List.mem_map_of_mem Prod.fst ((sortByKey_perm keyed).mem_iff.mp hp)
theorem ordered_domain_value_mem {V : Type} [DecidableEq V] {cfg : SolverCfg}
    {st : CSPState V} {v : String} {values : List V}
    (h : Solver.ordered_domain_value cfg st v = .ok values) :
    ∀ x ∈ values, x ∈ domOf st v := by
  unfold Solver.ordered_domain_value at h
  split at h
  · exact LCV_mem h
  · split at h
    · exact absurd h (by simp)
    · rename_i dom hdom
      cases h
      intro x hx
      rw [domOf_eq_of_lookup hdom]
      exact hx
theorem tryValues_fail_core {V : Type} [DecidableEq V]
    (recurse : CSPState V → Except (CSPState V) (Option (String → Option V) × CSPState V))
    (hrec : ∀ st st', st.unassigned_var.Nodup → PendingUnbound st →
      recurse st = .ok (none, st') → FailOut st st')
    (v : String) :
    ∀ (values : List V) (st st' : CSPState V),
      st.unassigned_var.Nodup → PendingUnbound st →
      (∀ x ∈ values, x ∈ domOf st v) →
      Solver.tryValues recurse v values [] st = .ok (none, st') →
      FailOut st st' := by
  intro values
  induction values with
  | nil =>
    intro st st' _ _ _ h
    simp only [Solver.tryValues] at h
    cases h
    exact failOut_refl st
  | cons value rest ih =>
    intro st st' hnd hpu hvals h
    simp only [Solver.tryValues] at h
    split at h
    · rename_i hguard
      rw [Bool.and_eq_true] at hguard
      split at h
      · exact absurd h (by simp)
      · rename_i b st1 hassign
        obtain ⟨hcont, rfl⟩ := assign_ok hassign
        have hv : v ∈ st.unassigned_var := by
          rw [List.contains_iff_exists_mem_beq] at hcont
          obtain ⟨u, hu, hbeq⟩ := hcont
          rwa [show v = u from beq_iff_eq.mp hbeq]
        split at h
        · exact absurd h (by simp)
        · rename_i rm st2 hrm
          have hod2 := remove_value_onlyDomains hrm
          have hj := remove_value_journal hrm
          split at h
          · exact absurd h (by simp)
          · exact absurd h (by simp)
          · rename_i st3 hcall
            have hnd2 : st2.unassigned_var.Nodup := by
              rw [hod2.2.2.2]
              exact hnd.erase v
            have hpu2 : PendingUnbound st2 := by
              intro w hw
              rw [hod2.2.2.2] at hw
              have hw' := (List.Nodup.mem_erase_iff hnd).mp hw
              rw [hod2.2.2.1]
              simp only [updf_apply, if_neg hw'.1]
              exact hpu w hw'.2
            have hfo23 : FailOut st2 st3 := hrec st2 st3 hnd2 hpu2 hcall
            split at h
            · exact absurd h (by simp)
            · rename_i st4 hun
              have hasg3v : st3.assignments v = some value := by
                rw [hfo23.2.1, hod2.2.2.1]
                simp [updf_apply]
              have hres := unassign_ok hun (by rw [hasg3v]; rfl)
              have hrod := restore_value_onlyDomains _ _ _ hres
              have hrmem := restore_value_mem _ _ _ hres
              have hdse : DomSetEq st st4 := by
                intro w x
                rw [hrmem w x]
                have hmid : domOf { st3 with
                    assignments := updf st3.assignments v none
                    unassigned_var := st3.unassigned_var ++ [v] } w = domOf st3 w := rfl
                rw [hmid, List.nil_append]
                have hchain : (x ∈ domOf st3 w ∨ (w, x) ∈ rm) ↔
                    (x ∈ domOf st2 w ∨ (w, x) ∈ rm) := by
                  rw [hfo23.1 w x]
                rw [hchain, hj w x]
                have hst1dom : domOf { st with
                    assignments := updf st.assignments v (some value)
                    unassigned_var := st.unassigned_var.erase v
                    assignments_number := st.assignments_number + 1 } w = domOf st w := rfl
                rw [hst1dom]
                constructor
                · rintro (hin | ⟨rfl, rfl⟩)
                  · exact hin
                  · exact hvals x (List.mem_cons_self x rest)
                · exact Or.inl
              have hasg4 : st4.assignments = st.assignments := by
                rw [hrod.2.2.1]
                funext w
                simp only [updf_apply]
                by_cases hw : w = v
                · rw [if_pos hw, hw]
                  exact (hpu v hv).symm
                · rw [if_neg hw, hfo23.2.1, hod2.2.2.1]
                  simp [updf_apply, hw]
              have hperm4 : st4.unassigned_var.Perm st.unassigned_var := by
                rw [hrod.2.2.2]
                have s1 : (st3.unassigned_var ++ [v]).Perm (st.unassigned_var.erase v ++ [v]) := by
                  refine List.Perm.append_right [v] ?_
                  have e2 : st2.unassigned_var = st.unassigned_var.erase v := hod2.2.2.2
                  rw [← e2]
                  exact hfo23.2.2
                have s2 : (st.unassigned_var.erase v ++ [v]).Perm (v :: st.unassigned_var.erase v) :=
                  List.perm_append_singleton v _
                exact (s1.trans s2).trans (List.perm_cons_erase hv).symm
              have hfo : FailOut st st4 := ⟨hdse, hasg4, hperm4⟩
              have hnd4 : st4.unassigned_var.Nodup := hperm4.nodup_iff.mpr hnd
              have hpu4 : PendingUnbound st4 := by
                intro w hw
                rw [hasg4]
                exact hpu w (hperm4.mem_iff.mp hw)
              have hvals4 : ∀ x ∈ rest, x ∈ domOf st4 v := by
                intro x hx
                rw [hdse v x]
                exact hvals x (List.mem_cons_of_mem value hx)
              exact failOut_trans hfo (ih st4 st' hnd4 hpu4 hvals4 h)
    · exact ih st st' hnd hpu (fun x hx => hvals x (List.mem_cons_of_mem value hx)) h
theorem backtrack_fail_core {V : Type} [DecidableEq V] (cfg : SolverCfg)
    (hac : cfg.AC_3 = false) :
    ∀ (fuel : Nat) (st st' : CSPState V),
      st.unassigned_var.Nodup → PendingUnbound st →
      Solver.backtrack_solver cfg fuel st = .ok (none, st') →
      FailOut st st' := by
  intro fuel
  induction fuel with
  | zero =>
    intro st st' _ _ h
    exact absurd h (by simp [Solver.backtrack_solver])
  | succ fuel ih =>
    intro st st' hnd hpu h
    simp only [Solver.backtrack_solver] at h
    rw [hac] at h
    simp only [Bool.false_eq_true, if_false] at h
    split at h
    · exact absurd h (by simp)
    · split at h
      · exact absurd h (by simp)
      · rename_i v hsel
        split at h
        · exact absurd h (by simp)
        · rename_i values hord
          exact tryValues_fail_core (Solver.backtrack_solver cfg fuel)
            (fun s s' a1 a2 hh => ih s s' a1 a2 hh) v values st st' hnd hpu
            (ordered_domain_value_mem hord) h
theorem mrvLoop_spec {V : Type} [DecidableEq V] (st : CSPState V) :
    ∀ (l : List String) (b : String),
      (∀ w ∈ l, (st.variables_ w).isSome) →
      Solver.mrvLoop l (some b) (some (domOf st b).length) st =
        .ok (some (keepMin st b (firstMinBySize st l))) := by
  intro l
  induction l with
  | nil =>
    intro b _
    simp [Solver.mrvLoop, firstMinBySize, keepMin]
  | cons v rest ih =>
    intro b hreg
    obtain ⟨dom, hdom⟩ : ∃ d, st.variables_ v = some d :=
      Option.isSome_iff_exists.mp (hreg v (List.mem_cons_self v rest))
    have hdv : (domOf st v).length = dom.length := by rw [domOf_eq_of_lookup hdom]
    have hrest : ∀ w ∈ rest, (st.variables_ w).isSome :=
      fun w hw => hreg w (List.mem_cons_of_mem v hw)
    simp only [Solver.mrvLoop, hdom, decide_eq_true_eq]
    by_cases hlt : dom.length < (domOf st b).length
    · rw [if_pos hlt]
      rw [← hdv] at hlt
      rw [← hdv, ih v hrest]
      simp only [firstMinBySize]
      cases hfm : firstMinBySize st rest with
      | none =>
        simp only [hfm, keepMin]
        rw [if_pos hlt]
      | some c =>
        simp only [hfm, keepMin]
        by_cases hvc : (domOf st v).length ≤ (domOf st c).length
        · rw [if_pos hvc]
          simp only [keepMin]
          rw [if_neg (by omega), if_pos hlt]
        · rw [if_neg hvc]
          simp only [keepMin]
          rw [if_pos (by omega), if_pos (by omega)]
    · rw [if_neg hlt]
      rw [← hdv] at hlt
      rw [ih b hrest]
      simp only [firstMinBySize]
      cases hfm : firstMinBySize st rest with
      | none =>
        simp only [hfm, keepMin]
        rw [if_neg (by omega)]
      | some c =>
        simp only [hfm, keepMin]
        by_cases hvc : (domOf st v).length ≤ (domOf st c).length
        · rw [if_pos hvc]
          simp only [keepMin]
          rw [if_neg (by omega), if_neg (by omega)]
        · rw [if_neg hvc]
theorem MRV_eq_firstMin {V : Type} [DecidableEq V] (st : CSPState V)
    (hreg : ∀ w ∈ st.unassigned_var, (st.variables_ w).isSome) :
    Solver.MRV st = .ok (firstMinBySize st st.unassigned_var) := by
  unfold Solver.MRV
  cases hl : st.unassigned_var with
  | nil => simp [Solver.mrvLoop, firstMinBySize]
  | cons v rest =>
    rw [hl] at hreg
    obtain ⟨dom, hdom⟩ : ∃ d, st.variables_ v = some d :=
      Option.isSome_iff_exists.mp (hreg v (List.mem_cons_self v rest))
    have hdv : (domOf st v).length = dom.length := by rw [domOf_eq_of_lookup hdom]
    have hrest : ∀ w ∈ rest, (st.variables_ w).isSome :=
      fun w hw => hreg w (List.mem_cons_of_mem v hw)
    simp only [Solver.mrvLoop, hdom, if_true]
    rw [← hdv, mrvLoop_spec st rest v hrest]
    simp only [firstMinBySize]
    cases hfm : firstMinBySize st rest with
    | none => simp only [hfm, keepMin]
    | some c =>
      simp only [hfm, keepMin]
      by_cases hvc : (domOf st v).length ≤ (domOf st c).length
      · rw [if_pos hvc, if_neg (by omega)]
      · rw [if_neg hvc, if_pos (by omega)]
/-! ## One-pass structure of AC-3 (claim C4) -/
theorem ac3Loop_prefix {V : Type} [DecidableEq V] :
    ∀ (queue : List (CPred V × (String × String))) (acc : List (String × V))
      (st : CSPState V) (rm : List (String × V)) (st' : CSPState V),
      Solver.ac3Loop queue acc st = .ok (rm, st') →
      ∃ pre suf, queue = pre ++ suf ∧
        Solver.ac3Loop pre acc st = .ok (rm, st') ∧
        (suf ≠ [] → ∃ c pre0, pre = pre0 ++ [c] ∧ domOf st' c.2.1 = []) := by
  intro queue
  induction queue with
  | nil =>
    intro acc st rm st' h
    exact ⟨[], [], rfl, h, fun hc => absurd rfl hc⟩
  | cons c rest ih =>
    intro acc st rm st' h
    simp only [Solver.ac3Loop] at h
    split at h
    · rename_i hskip
      obtain ⟨pre, suf, heq, hrun, hlast⟩ := ih _ _ _ _ h
      refine ⟨c :: pre, suf, by rw [heq]; rfl, ?_, ?_⟩
      · simp only [Solver.ac3Loop]
        rw [if_pos hskip]
        exact hrun
      · intro hsuf
        obtain ⟨cl, pre0, hpre, hdom⟩ := hlast hsuf
        exact ⟨cl, c :: pre0, by rw [hpre]; rfl, hdom⟩
    · rename_i hskip
      split at h
      · exact absurd h (by simp)
      · rename_i removed st1 harc
        split at h
        · rename_i hlen
          cases h
          refine ⟨[c], rest, rfl, ?_, ?_⟩
          · simp only [Solver.ac3Loop]
            rw [if_neg hskip]
            simp only [harc]
            rw [if_pos hlen]
          · intro _
            refine ⟨c, [], rfl, ?_⟩
            exact List.length_eq_zero.mp (beq_iff_eq.mp hlen)
        · rename_i hlen
          obtain ⟨pre, suf, heq, hrun, hlast⟩ := ih _ _ _ _ h
          refine ⟨c :: pre, suf, by rw [heq]; rfl, ?_, ?_⟩
          · simp only [Solver.ac3Loop]
            rw [if_neg hskip]
            simp only [harc]
            rw [if_neg hlen]
            exact hrun
          · intro hsuf
            obtain ⟨cl, pre0, hpre, hdom⟩ := hlast hsuf
            exact ⟨cl, c :: pre0, by rw [hpre]; rfl, hdom⟩
/-- C4: `apply_AC3` performs exactly one pass over the arcs initially queued
from the registered constraint list.  A successful run equals the `ac3Loop`
run over a *prefix* of `st.constraints` — the worklist is only ever popped,
never re-enqueued after a domain shrinks — and arcs are left unprocessed
exactly when the last processed arc emptied its first variable's domain, in
which case the removals accumulated so far are returned. -/
theorem C4_apply_AC3_one_pass {V : Type} [DecidableEq V] {st : CSPState V}
    {rm : List (String × V)} {st' : CSPState V}
    (h : Solver.apply_AC3 st = .ok (rm, st')) :
    ∃ pre suf, st.constraints = pre ++ suf ∧
      Solver.ac3Loop pre [] st = .ok (rm, st') ∧
      (suf ≠ [] → ∃ c pre0, pre = pre0 ++ [c] ∧ domOf st' c.2.1 = []) :=
  ac3Loop_prefix _ _ _ _ _ h
/-! ## Error behaviour of `remove_value` (claim C7) -/
theorem updf_some_eq_none_iff {α : Type} (f : String → Option α) (k w : String) (d : α) :
    (updf f k (some d) w = none) ↔ (w ≠ k ∧ f w = none) := by
  simp only [updf_apply]
  by_cases hw : w = k
  · simp [hw]
  · simp [hw]
theorem removeNeighbors_error_char {V : Type} [DecidableEq V] {value : V} :
    ∀ (entry : List (CPred V × (String × String))) (acc : List (String × V))
      (s : CSPState V),
      (∃ e, CSP.removeNeighbors value entry acc s = .error e) ↔
        ∃ c ∈ entry, c.2.2 ≠ "" ∧ s.variables_ c.2.2 = none := by
  intro entry
  induction entry with
  | nil =>
    intro acc s
    simp [CSP.removeNeighbors]
  | cons c rest ih =>
    intro acc s
    rw [List.exists_mem_cons_iff]
    by_cases hne : c.2.2 ≠ ""
    · cases hv : s.variables_ c.2.2 with
      | none =>
        have hred : CSP.removeNeighbors value (c :: rest) acc s = .error s := by
          simp only [CSP.removeNeighbors]
          rw [if_pos hne]
          simp only [hv]
        simp only [hred]
        constructor
        · intro _
          exact Or.inl ⟨hne, trivial⟩
        · intro _
          exact ⟨s, rfl⟩
      | some ndom =>
        have hcfalse : ¬ (c.2.2 ≠ "" ∧ (some ndom : Option (List V)) = none) := by
          rintro ⟨-, hnone⟩
          exact Option.noConfusion hnone
        by_cases hmem : value ∈ ndom
        · have hred : CSP.removeNeighbors value (c :: rest) acc s =
              CSP.removeNeighbors value rest (acc ++ [(c.2.2, value)])
                { s with variables_ := updf s.variables_ c.2.2 (some (ndom.erase value)) } := by
            simp only [CSP.removeNeighbors]
            rw [if_pos hne]
            simp only [hv]
            rw [if_pos hmem]
          rw [hred, ih]
          have htr : ∀ cc : CPred V × (String × String),
              (updf s.variables_ c.2.2 (some (ndom.erase value)) cc.2.2 = none) ↔
                (cc.2.2 ≠ c.2.2 ∧ s.variables_ cc.2.2 = none) :=
            fun cc => updf_some_eq_none_iff s.variables_ c.2.2 cc.2.2 (ndom.erase value)
          constructor
          · rintro ⟨cc, hcc, hccne, hccnone⟩
            exact Or.inr ⟨cc, hcc, hccne, ((htr cc).mp hccnone).2⟩
          · rintro (hfirst | ⟨cc, hcc, hccne, hccnone⟩)
            · exact absurd hfirst hcfalse
            · refine ⟨cc, hcc, hccne, (htr cc).mpr ⟨?_, hccnone⟩⟩
              intro hcontra
              rw [hcontra, hv] at hccnone
              exact Option.noConfusion hccnone
        · have hred : CSP.removeNeighbors value (c :: rest) acc s =
              CSP.removeNeighbors value rest acc s := by
            simp only [CSP.removeNeighbors]
            rw [if_pos hne]
            simp only [hv]
            rw [if_neg hmem]
          rw [hred, ih]
          tauto
    · have hred : CSP.removeNeighbors value (c :: rest) acc s =
          CSP.removeNeighbors value rest acc s := by
        simp only [CSP.removeNeighbors]
        rw [if_neg hne]
      rw [hred, ih]
      have hcfalse : ¬ (c.2.2 ≠ "" ∧ s.variables_ c.2.2 = none) := fun hc => hne hc.1
      tauto
/-- C7 (amended): `CSP.remove_value` raises exactly when the variable is
unregistered, or the variable has no `var_constraints` entry at all (even a
registered variable), or some constraint keyed on it has a truthy partner
that is a different, unregistered variable.  In particular a registered
variable with no constraints keyed on it *does* raise, contrary to the
original claim. -/
theorem C7_remove_value_error_characterization {V : Type} [DecidableEq V] (st : CSPState V)
    (v : String) (value : V) :
    (∃ e, CSP.remove_value st v value = .error e) ↔
      (st.variables_ v = none ∨ st.var_constraints v = none ∨
        ∃ c ∈ (st.var_constraints v).getD [], c.2.2 ≠ "" ∧
          (c.2.2 ≠ v ∧ st.variables_ c.2.2 = none)) := by
  cases hv : st.variables_ v with
  | none =>
    have hred : CSP.remove_value st v value = .error st := by
      simp only [CSP.remove_value, hv]
    simp only [hred]
    constructor
    · intro _
      exact Or.inl trivial
    · intro _
      exact ⟨st, rfl⟩
  | some dom =>
    cases hvc : st.var_constraints v with
    | none =>
      have hred : CSP.remove_value st v value =
          .error { st with variables_ := updf st.variables_ v (some [value]) } := by
        simp only [CSP.remove_value, hv, hvc]
      simp only [hred, hv, hvc]
      constructor
      · intro _
        exact Or.inr (Or.inl trivial)
      · intro _
        exact ⟨_, rfl⟩
    | some entry =>
      have hred : CSP.remove_value st v value =
          CSP.removeNeighbors value entry
            ((dom.filter (fun z => z != value)).map (fun z => (v, z)))
            { st with variables_ := updf st.variables_ v (some [value]) } := by
        simp only [CSP.remove_value, hv, hvc]
      rw [hred, removeNeighbors_error_char]
      simp only [hv, hvc, Option.getD_some]
      have htr : ∀ cc : CPred V × (String × String),
          (updf st.variables_ v (some [value]) cc.2.2 = none) ↔
            (cc.2.2 ≠ v ∧ st.variables_ cc.2.2 = none) :=
        fun cc => updf_some_eq_none_iff st.variables_ v cc.2.2 [value]
      constructor
      · rintro ⟨cc, hcc, hccne, hccnone⟩
        exact Or.inr (Or.inr ⟨cc, hcc, hccne, (htr cc).mp hccnone⟩)
      · rintro (h | h | ⟨cc, hcc, hccne, hccrest⟩)
        · exact Option.noConfusion h
        · exact Option.noConfusion h
        · exact ⟨cc, hcc, hccne, (htr cc).mpr hccrest⟩
theorem auxInv_addVar {V : Type} [DecidableEq V] {st : CSPState V} {v : String}
    {d : List V} (hinv : AuxInv st) (hfresh : (st.variables_ v).isNone) :
    AuxInv (CSP.add_variable st v d) := by
  obtain ⟨hc, hp, ha⟩ := hinv
  have hnone : st.variables_ v = none := Option.isNone_iff_eq_none.mp hfresh
  have hvnm : v ∉ st.unassigned_var := by
    intro hm
    have := hp v hm
    rw [hnone] at this
    exact Bool.noConfusion this
  have hvasg : st.assignments v = none := by
    cases hca : st.assignments v with
    | none => rfl
    | some z =>
      have := ha v (by rw [hca]; rfl)
      rw [hnone] at this
      exact Bool.noConfusion this
  refine ⟨?_, ?_, ?_⟩
  · intro w hw
    by_cases hwv : w = v
    · subst hwv
      left
      constructor
      · simp only [CSP.add_variable, List.count_append]
        rw [List.count_eq_zero.mpr hvnm]
        simp
      · exact hvasg
    · simp only [CSP.add_variable, updf_apply, if_neg hwv] at hw
      have hcw := hc w hw
      simp only [CSP.add_variable, List.count_append, List.mem_append,
        List.mem_singleton]
      have hcnt : List.count w [v] = 0 := by
        rw [List.count_eq_zero]
        simp [hwv]
      rcases hcw with ⟨h1, h2⟩ | ⟨h1, h2⟩
      · exact Or.inl ⟨by rw [hcnt]; omega, h2⟩
      · exact Or.inr ⟨by rintro (hm | rfl); exacts [h1 hm, hwv rfl], h2⟩
  · intro w hw
    simp only [CSP.add_variable, List.mem_append, List.mem_singleton] at hw
    simp only [CSP.add_variable, updf_apply]
    rcases hw with hm | rfl
    · by_cases hwv : w = v
      · rw [if_pos hwv]; rfl
      · rw [if_neg hwv]; exact hp w hm
    · rw [if_pos rfl]; rfl
  · intro w hw
    simp only [CSP.add_variable, updf_apply]
    by_cases hwv : w = v
    · rw [if_pos hwv]; rfl
    · rw [if_neg hwv]
      exact ha w hw
theorem auxInv_assign {V : Type} [DecidableEq V] {st s : CSPState V} {v : String}
    {val : V} {b : Bool} (hinv : AuxInv st)
    (h : CSP.assign st v val = .ok (b, s)) : AuxInv s := by
  obtain ⟨hc, hp, ha⟩ := hinv
  obtain ⟨hcont, rfl⟩ := assign_ok h
  have hv : v ∈ st.unassigned_var := by
    rw [List.contains_iff_exists_mem_beq] at hcont
    obtain ⟨u, hu, hbeq⟩ := hcont
    rwa [show v = u from beq_iff_eq.mp hbeq]
  have hvreg := hp v hv
  have hcv := hc v hvreg
  have hvcount : st.unassigned_var.count v = 1 := by
    rcases hcv with ⟨h1, -⟩ | ⟨h1, -⟩
    · exact h1
    · exact absurd hv h1
  refine ⟨?_, ?_, ?_⟩
  · intro w hw
    by_cases hwv : w = v
    · subst hwv
      right
      constructor
      · intro hm
        have := List.count_pos_iff.mpr hm
        rw [List.count_erase_self, hvcount] at this
        omega
      · simp [updf_apply]
    · have hcw := hc w hw
      have hcnt : (st.unassigned_var.erase v).count w = st.unassigned_var.count w :=
        List.count_erase_of_ne hwv _
      rcases hcw with ⟨h1, h2⟩ | ⟨h1, h2⟩
      · exact Or.inl ⟨by rw [hcnt]; exact h1, by simp [updf_apply, hwv]; exact h2⟩
      · refine Or.inr ⟨fun hm => h1 (List.mem_of_mem_erase hm), ?_⟩
        simp only [updf_apply, if_neg hwv]
        exact h2
  · intro w hw
    exact hp w (List.mem_of_mem_erase hw)
  · intro w hw
    simp only [updf_apply] at hw
    by_cases hwv : w = v
    · rw [hwv]
      exact hvreg
    · rw [if_neg hwv] at hw
      exact ha w hw
theorem restore_value_registered {V : Type} [DecidableEq V] :
    ∀ (lst : List (String × V)) (st st' : CSPState V),
      CSP.restore_value st lst = .ok st' →
      ∀ w, (st'.variables_ w).isSome ↔ (st.variables_ w).isSome := by
  intro lst
  induction lst with
  | nil =>
    intro st st' h w
    simp only [CSP.restore_value] at h
    cases h
    exact Iff.rfl
  | cons p rest ih =>
    intro st st' h w
    simp only [CSP.restore_value] at h
    split at h
    · exact absurd h (by simp)
    · rename_i d hdom
      rw [ih _ _ h w]
      simp only [updf_apply]
      by_cases hw : w = p.1
      · rw [if_pos hw, hw, hdom]
        simp
      · rw [if_neg hw]
theorem auxInv_unassign {V : Type} [DecidableEq V] {st s : CSPState V}
    {log : List (String × V)} {v : String} (hinv : AuxInv st)
    (h : CSP.unassign st log v = .ok s) : AuxInv s := by
  obtain ⟨hc, hp, ha⟩ := hinv
  unfold CSP.unassign at h
  split at h
  · rename_i hvasg
    have hrod := restore_value_onlyDomains _ _ _ h
    have hreg := restore_value_registered _ _ _ h
    have hvreg : (st.variables_ v).isSome := ha v hvasg
    have hcv := hc v hvreg
    have hvnm : v ∉ st.unassigned_var := by
      rcases hcv with ⟨-, h2⟩ | ⟨h2, -⟩
      · rw [h2] at hvasg
        exact Bool.noConfusion hvasg
      · exact h2
    have hasg : s.assignments = updf st.assignments v none := hrod.2.2.1
    have hun : s.unassigned_var = st.unassigned_var ++ [v] := hrod.2.2.2
    refine ⟨?_, ?_, ?_⟩
    · intro w hw
      rw [hreg w] at hw
      by_cases hwv : w = v
      · subst hwv
        left
        constructor
        · rw [hun, List.count_append, List.count_eq_zero.mpr hvnm]
          simp
        · rw [hasg]
          simp [updf_apply]
      · have hcw := hc w hw
        have hcnt : List.count w [v] = 0 := by
          rw [List.count_eq_zero]
          simp [hwv]
        rcases hcw with ⟨h1, h2⟩ | ⟨h1, h2⟩
        · refine Or.inl ⟨?_, ?_⟩
          · rw [hun, List.count_append, hcnt]
            omega
          · rw [hasg]
            simp only [updf_apply, if_neg hwv]
            exact h2
        · refine Or.inr ⟨?_, ?_⟩
          · rw [hun]
            rintro hm
            rcases List.mem_append.mp hm with hm | hm
            · exact h1 hm
            · rw [List.mem_singleton] at hm
              exact hwv hm
          · rw [hasg]
            simp only [updf_apply, if_neg hwv]
            exact h2
    · intro w hw
      rw [hreg w]
      rw [hun] at hw
      rcases List.mem_append.mp hw with hm | hm
      · exact hp w hm
      · rw [List.mem_singleton] at hm
        rw [hm]
        exact hvreg
    · intro w hw
      rw [hreg w]
      rw [hasg] at hw
      simp only [updf_apply] at hw
      by_cases hwv : w = v
      · rw [if_pos hwv] at hw
        exact Bool.noConfusion hw
      · rw [if_neg hwv] at hw
        exact ha w hw
  · cases h
    exact ⟨hc, hp, ha⟩
theorem runOps_auxInv {V : Type} [DecidableEq V] :
    ∀ (ops : List (CSPOp V)) (st st' : CSPState V),
      AuxInv st → safeOps st ops = true → runOps st ops = .ok st' →
      AuxInv st' := by
  intro ops
  induction ops with
  | nil =>
    intro st st' hinv _ h
    simp only [runOps] at h
    cases h
    exact hinv
  | cons op rest ih =>
    intro st st' hinv hsafe h
    simp only [safeOps, Bool.and_eq_true] at hsafe
    simp only [runOps] at h
    cases hop : runOp st op with
    | error e =>
      rw [hop] at h
      exact absurd h (by simp)
    | ok s =>
      rw [hop] at h
      have hsafe2 : safeOps s rest = true := by
        have := hsafe.2
        rw [hop] at this
        exact this
      refine ih s st' ?_ hsafe2 h
      cases op with
      | addVar v d =>
        have hfresh : (st.variables_ v).isNone := hsafe.1
        have : s = CSP.add_variable st v d := by
          simp only [runOp] at hop
          cases hop
          rfl
        rw [this]
        exact auxInv_addVar hinv hfresh
      | assignVar v val =>
        simp only [runOp] at hop
        split at hop
        · exact absurd hop (by simp)
        · rename_i b s1 hassign
          cases hop
          exact auxInv_assign hinv hassign
      | unassignVar log v =>
        simp only [runOp] at hop
        exact auxInv_unassign hinv hop
/-! ## The unassigned-neighbor sentinel in `is_consistent` (claim C5) -/
/-- C5 (amended): the consistency check against an unassigned neighbor
applies the constraint predicate to the candidate value and the `[]`
sentinel (`none`); provided every such predicate accepts the sentinel — as
the application's disequality predicates do — `is_consistent` rejects
exactly when some constraint with an *assigned* partner is violated, i.e.
unassigned neighbors never cause a rejection. -/
theorem C5_sentinel_characterization {V : Type} [DecidableEq V] (st : CSPState V) (v : String)
    (value : V)
    (hsent : ∀ c ∈ (st.var_constraints v).getD [], st.assignments c.2.2 = none →
      c.1 value none = true) :
    CSP.is_consistent st v value = true ↔
      ∀ c ∈ (st.var_constraints v).getD [], ∀ b, st.assignments c.2.2 = some b →
        c.1 value (some b) = true := by
  unfold CSP.is_consistent
  cases hvc : st.var_constraints v with
  | none => simp [hvc]
  | some entry =>
    simp only [hvc, Option.getD_some] at hsent ⊢
    rw [List.all_eq_true]
    constructor
    · intro hall c hc b hb
      have := hall c hc
      rwa [hb] at this
    · intro himp c hc
      cases hb : st.assignments c.2.2 with
      | none =>
        have := hsent c hc hb
        simpa [hb] using this
      | some b =>
        have := himp c hc b hb
        simpa [hb] using this
/-! ## The claims -/
/-- C1, counterexample: `backtrack_solver` (plain configuration) succeeds on
`c1St` with `A := 1, B := 2`, yet the registered constraint
`(sentinelOnly, ("A","B"))` evaluates false on the bound pair.
`is_consistent` only checks constraints keyed on the variable being
assigned, with the `[]` sentinel for a not-yet-assigned partner, and never
re-checks an arc once the partner is assigned, so a predicate that passes the
sentinel but rejects the realized pair slips through. -/
theorem C1_counterexample :
    (sentinelOnly, ("A", "B")) ∈ c1St.constraints ∧
    Solver.backtrack_solver cfgPlain 5 c1St = .ok (some (okAsgOf c1Run), okStOf c1Run) ∧
    okAsgOf c1Run "A" = some 1 ∧ okAsgOf c1Run "B" = some 2 ∧
    sentinelOnly 1 (some 2) = false := by
  refine ⟨?_, rfl, rfl, rfl, rfl⟩
  show (sentinelOnly, ("A", "B")) ∈
    [(sentinelOnly, ("A", "B")), (alwaysTrue, ("B", "A"))]
  exact List.mem_cons_self _ _
/-- C1 (amended): whenever every registered constraint relates two distinct
variables, has its mirrored twin registered, and appears in the
`var_constraints` index under its first variable, and the state's current
assignment satisfies all bound constraints, then any successful
`backtrack_solver` result (under any heuristic configuration) satisfies
every registered constraint on the pair of values it binds. -/
theorem C1_soundness_amended {V : Type} [DecidableEq V] (cfg : SolverCfg) (fuel : Nat)
    (st st' : CSPState V) (a : String → Option V)
    (hsym : SymClosed st) (hkey : KeyedIndex st) (hns : NoSelfArc st) (hinv : InvA st)
    (h : Solver.backtrack_solver cfg fuel st = .ok (some a, st')) :
    SoundAssign st.constraints a := by
  obtain ⟨hss, hinv', hval⟩ := backtrack_sound_core cfg fuel st _ st' hsym hkey hns hinv h
  rw [hval a rfl]
  unfold InvA at hinv'
  rwa [hss.1] at hinv'
theorem C1_soundness_amended_witness : diseqB true (some false) = true := by
  have hcs : c1wSt.constraints = [(diseqB, ("A", "B")), (diseqB, ("B", "A"))] := rfl
  have hsym : SymClosed c1wSt := by
    intro c hc
    rw [hcs] at hc
    simp only [List.mem_cons, List.not_mem_nil, or_false] at hc
    rcases hc with rfl | rfl
    · refine ⟨(diseqB, ("B", "A")), ?_, rfl, rfl, by decide⟩
      rw [hcs]
      exact List.mem_cons_of_mem _ (List.mem_cons_self _ _)
    · refine ⟨(diseqB, ("A", "B")), ?_, rfl, rfl, by decide⟩
      rw [hcs]
      exact List.mem_cons_self _ _
  have hkey : KeyedIndex c1wSt := by
    intro c hc
    rw [hcs] at hc
    simp only [List.mem_cons, List.not_mem_nil, or_false] at hc
    rcases hc with rfl | rfl
    · exact ⟨[(diseqB, ("A", "B"))], rfl, List.mem_cons_self _ _⟩
    · exact ⟨[(diseqB, ("B", "A"))], rfl, List.mem_cons_self _ _⟩
  have hns : NoSelfArc c1wSt := by
    intro c hc
    rw [hcs] at hc
    simp only [List.mem_cons, List.not_mem_nil, or_false] at hc
    rcases hc with rfl | rfl
    · decide
    · decide
  have hinv : InvA c1wSt := by
    intro c hc x y hx _
    exact Option.noConfusion hx
  have hrun : Solver.backtrack_solver cfgPlain 5 c1wSt =
      .ok (some (okAsgOf c1wRun), okStOf c1wRun) := rfl
  have hsound := C1_soundness_amended cfgPlain 5 c1wSt (okStOf c1wRun)
    (okAsgOf c1wRun) hsym hkey hns hinv hrun
  have := hsound (diseqB, ("A", "B")) (by rw [hcs]; exact List.mem_cons_self _ _)
    true false rfl rfl
  exact this
/-- C2, counterexample (AC-3 enabled): in the root call on `c2St`, AC-3 first
removes `("A", 2)` and `("B", 2)`; the attempt `A := 1` then begins with A's
domain `[1]`.  The branch fails and `unassign` restores the whole journal —
including the AC-3 removals made *before* the attempt — so afterwards A's
domain is `[2]` (the child call's own AC-3 removal of `1` leaked, and the
pre-attempt removal of `2` was restored), not set-for-set equal to `[1]`. -/
theorem C2_counterexample :
    Solver.apply_AC3 c2St = .ok (c2Log, c2Stp) ∧
    domOf c2Stp "A" = [1] ∧
    CSP.is_consistent c2Stp "A" 1 = true ∧
    CSP.is_assigned c2Stp "A" = false ∧
    CSP.assign c2Stp "A" 1 = .ok (true, c2St1) ∧
    CSP.remove_value c2St1 "A" 1 = .ok (rmLogOf c2Rm, c2St2) ∧
    Solver.backtrack_solver cfgAC3 4 c2St2 = .ok (none, c2St3) ∧
    CSP.unassign c2St3 (c2Log ++ rmLogOf c2Rm) "A" = .ok c2St4 ∧
    Solver.backtrack_solver cfgAC3 5 c2St = .ok (none, c2St4) ∧
    domOf c2St4 "A" = [2] :=
  ⟨rfl, rfl, rfl, rfl, rfl, rfl, rfl, rfl, rfl, rfl⟩
/-- C2 (amended): with AC-3 disabled, a failed branch of `backtrack_solver`
— a value from the variable's domain was assigned, `remove_value` journalled
the removals, the recursive call returned failure, and `unassign` restored
the journal — leaves every variable's domain set-for-set identical to its
contents immediately before the branch's assignment attempt began.  (With
AC-3 enabled the branch journal additionally holds the removals AC-3 made
*before* the attempt, and the property fails; see the counterexample.) -/
theorem C2_failed_branch_restores_domains {V : Type} [DecidableEq V]
    (cfg : SolverCfg) (hac : cfg.AC_3 = false) (fuel : Nat)
    (st st1 st2 st3 st4 : CSPState V) (v : String) (value : V) (b : Bool)
    (rm : List (String × V))
    (hnd : st.unassigned_var.Nodup) (hpu : PendingUnbound st)
    (hval : value ∈ domOf st v)
    (hassign : CSP.assign st v value = .ok (b, st1))
    (hrm : CSP.remove_value st1 v value = .ok (rm, st2))
    (hfail : Solver.backtrack_solver cfg fuel st2 = .ok (none, st3))
    (hun : CSP.unassign st3 rm v = .ok st4) :
    ∀ w x, x ∈ domOf st4 w ↔ x ∈ domOf st w := by
  obtain ⟨hcont, rfl⟩ := assign_ok hassign
  have hv : v ∈ st.unassigned_var := by
    rw [List.contains_iff_exists_mem_beq] at hcont
    obtain ⟨u, hu, hbeq⟩ := hcont
    rwa [show v = u from beq_iff_eq.mp hbeq]
  have hod2 := remove_value_onlyDomains hrm
  have hj := remove_value_journal hrm
  have hnd2 : st2.unassigned_var.Nodup := by
    rw [hod2.2.2.2]
    exact hnd.erase v
  have hpu2 : PendingUnbound st2 := by
    intro w hw
    rw [hod2.2.2.2] at hw
    have hw' := (List.Nodup.mem_erase_iff hnd).mp hw
    rw [hod2.2.2.1]
    simp only [updf_apply, if_neg hw'.1]
    exact hpu w hw'.2
  have hfo23 : FailOut st2 st3 :=
    backtrack_fail_core cfg hac fuel st2 st3 hnd2 hpu2 hfail
  have hasg3v : st3.assignments v = some value := by
    rw [hfo23.2.1, hod2.2.2.1]
    simp [updf_apply]
  have hres := unassign_ok hun (by rw [hasg3v]; rfl)
  have hrmem := restore_value_mem _ _ _ hres
  intro w x
  rw [hrmem w x]
  have hmid : domOf { st3 with
      assignments := updf st3.assignments v none
      unassigned_var := st3.unassigned_var ++ [v] } w = domOf st3 w := rfl
  rw [hmid]
  have hchain : (x ∈ domOf st3 w ∨ (w, x) ∈ rm) ↔
      (x ∈ domOf st2 w ∨ (w, x) ∈ rm) := by
    rw [hfo23.1 w x]
  rw [hchain, hj w x]
  have hst1dom : domOf { st with
      assignments := updf st.assignments v (some value)
      unassigned_var := st.unassigned_var.erase v
      assignments_number := st.assignments_number + 1 } w = domOf st w := rfl
  rw [hst1dom]
  constructor
  · rintro (hin | ⟨rfl, rfl⟩)
    · exact hin
    · exact hval
  · exact Or.inl
theorem C2_failed_branch_restores_domains_witness :
    (1 ∈ domOf c2wSt4 "B" ↔ 1 ∈ domOf c2wSt "B") ∧ domOf c2wSt4 "B" = [1] := by
  refine ⟨?_, rfl⟩
  have h1 : CSP.assign c2wSt "A" 1 = .ok (asgBOf c2wAs, c2wSt1) := rfl
  have h2 : CSP.remove_value c2wSt1 "A" 1 = .ok (rmLogOf c2wRm, c2wSt2) := rfl
  have h3 : Solver.backtrack_solver cfgPlain 3 c2wSt2 = .ok (none, c2wSt3) := rfl
  have h4 : CSP.unassign c2wSt3 (rmLogOf c2wRm) "A" = .ok c2wSt4 := rfl
  exact C2_failed_branch_restores_domains cfgPlain rfl 3 c2wSt c2wSt1 c2wSt2 c2wSt3
    c2wSt4 "A" 1 (asgBOf c2wAs) (rmLogOf c2wRm) (by decide)
    (by unfold PendingUnbound; decide) (by decide) h1 h2 h3 h4 "B" 1
/-- C3: the claim is right and the code has a slip.  `arc_reduce` removes
from the list it is iterating, so Python's index-based iterator skips the
element that slides into the removed slot: on X's domain `[1, 2]` against
Y's domain `[3]` with an always-false predicate, the value `1` is removed
(and returned) but the equally unsupported value `2` is skipped and stays in
X's domain, although no value of Y supports it. -/
theorem C3_arc_reduce_skips :
    Solver.arc_reduce c3St "X" "Y" alwaysFalse = .ok ([1], rmStOf c3Run) ∧
    domOf (rmStOf c3Run) "X" = [2] ∧
    (∀ y ∈ domOf (rmStOf c3Run) "Y", alwaysFalse 2 (some y) = false) :=
  ⟨rfl, rfl, by decide⟩
theorem C4_apply_AC3_one_pass_witness :
    ∃ pre suf, c2St.constraints = pre ++ suf ∧
      Solver.ac3Loop pre [] c2St = .ok (c2Log, c2Stp) ∧
      (suf ≠ [] → ∃ c pre0, pre = pre0 ++ [c] ∧ domOf c2Stp c.2.1 = []) :=
  C4_apply_AC3_one_pass rfl
theorem C5_sentinel_characterization_witness :
    CSP.is_consistent c1St "A" 1 = true ↔
      ∀ c ∈ (c1St.var_constraints "A").getD [], ∀ b,
        c1St.assignments c.2.2 = some b → c.1 1 (some b) = true := by
  refine C5_sentinel_characterization c1St "A" 1 ?_
  intro c hc h
  have he : (c1St.var_constraints "A").getD [] = [(sentinelOnly, ("A", "B"))] := rfl
  rw [he] at hc
  simp only [List.mem_cons, List.not_mem_nil, or_false] at hc
  subst hc
  rfl
/-- C5, counterexample: one registered constraint keyed on A whose predicate
rejects the `[]` sentinel; B is unassigned, yet `is_consistent` rejects the
assignment — the check against an unassigned neighbor does *not* always
pass, it applies the predicate to the sentinel. -/
theorem C5_counterexample :
    c5St.assignments "B" = none ∧
    c5St.var_constraints "A" = some [(rejectsSentinel, ("A", "B"))] ∧
    CSP.is_consistent c5St "A" 1 = false :=
  ⟨rfl, rfl, rfl⟩
/-- C6: the claim is right and the code has a slip.  The loop
`for constraint_func, tuples in self.var_constraints[variable]` shadows the
`constraint_func` parameter, so when a constraint for a *new* pair (A, C) is
added after one for (A, B), the predicate actually stored for (A, C) is the
previously registered one (`alwaysTrue`), not the given one
(`alwaysFalse`). -/
theorem C6_add_constraint_shadowing :
    c6St.var_constraints "A" =
      some [(alwaysTrue, ("A", "B")), (alwaysTrue, ("A", "C"))] ∧
    c6St.constraints = [(alwaysTrue, ("A", "B")), (alwaysTrue, ("A", "C"))] ∧
    alwaysTrue ≠ alwaysFalse := by
  refine ⟨rfl, rfl, ?_⟩
  intro h
  have := congrFun (congrFun h 0) none
  simp [alwaysTrue, alwaysFalse] at this
/-- C7, counterexample: "A" is registered, has no constraints keyed on it,
and `remove_value` raises (`KeyError` on `self.var_constraints[variable]`),
with A's domain already collapsed at the raise point — contrary to the
claim that every registered variable returns a removal log without
throwing. -/
theorem C7_counterexample :
    (c7St.variables_ "A").isSome = true ∧
    CSP.remove_value c7St "A" 1 =
      .error { c7St with variables_ := updf c7St.variables_ "A" (some [1]) } :=
  ⟨rfl, rfl⟩
/-- C8 (amended): with MRV enabled, `select_unassigned_variable` returns the
unassigned variable with the smallest current domain size, ties broken by
the earliest position in the *current* `unassigned_var` list
(`firstMinBySize`).  That position order equals first-seen insertion order
only until a backtrack: `unassign` re-appends the variable at the end of the
list, after which the earliest-inserted variable can lose the tie (see the
counterexample). -/
theorem C8_mrv_first_argmin {V : Type} [DecidableEq V] (cfg : SolverCfg)
    (hcfg : cfg.variable_heuristic = true) (st : CSPState V)
    (hreg : ∀ w ∈ st.unassigned_var, (st.variables_ w).isSome)
    (hne : st.unassigned_var ≠ []) :
    ∃ m, firstMinBySize st st.unassigned_var = some m ∧
      Solver.select_unassigned_variable cfg st = .ok m := by
  have hsome : (firstMinBySize st st.unassigned_var).isSome = true := by
    cases hl : st.unassigned_var with
    | nil => exact absurd hl hne
    | cons v rest =>
      simp only [firstMinBySize]
      cases firstMinBySize st rest with
      | none => rfl
      | some b =>
        dsimp only
        split
        · rfl
        · rfl
  obtain ⟨m, hfm⟩ := Option.isSome_iff_exists.mp hsome
  refine ⟨m, hfm, ?_⟩
  unfold Solver.select_unassigned_variable
  rw [if_pos hcfg, MRV_eq_firstMin st hreg, hfm]
theorem C8_mrv_first_argmin_witness :
    ∃ m, firstMinBySize c8St2 c8St2.unassigned_var = some m ∧
      Solver.select_unassigned_variable cfgMRV c8St2 = .ok m :=
  C8_mrv_first_argmin cfgMRV rfl c8St2 (by decide) (by decide)
/-- C8, counterexample: A is inserted (first seen) before B and both have
domain size 2 (a tie), but after assigning and unassigning A the pending
list is `["B", "A"]` and MRV selects B — not the first-inserted variable.
So the tie is broken by current list position, not by first-seen order. -/
theorem C8_counterexample :
    c8St0.unassigned_var = ["A", "B"] ∧
    c8St2.unassigned_var = ["B", "A"] ∧
    domOf c8St2 "A" = [1, 2] ∧ domOf c8St2 "B" = [1, 2] ∧
    Solver.MRV c8St2 = .ok (some "B") ∧
    Solver.select_unassigned_variable cfgMRV c8St2 = .ok "B" :=
  ⟨rfl, rfl, rfl, rfl, rfl, rfl⟩
/-- C9 (amended): starting from a fresh model, every sequence of the public
operations `add_variable` / `assign` / `unassign` in which `add_variable` is
only applied to not-yet-registered names and no call raises preserves the
invariant: each registered variable is either pending (exactly one
occurrence in the unassigned list, no mapping entry) or assigned (no
occurrence, a mapping entry).  Registering the same variable twice breaks it
(see the counterexample). -/
theorem C9_invariant_preserved {V : Type} [DecidableEq V] (ops : List (CSPOp V))
    (st' : CSPState V) (hsafe : safeOps (CSP.init V) ops = true)
    (hrun : runOps (CSP.init V) ops = .ok st') : ClaimInv st' := by
  have hinit : AuxInv (CSP.init V) := by
    refine ⟨?_, ?_, ?_⟩
    · intro v hv
      exact Bool.noConfusion hv
    · intro v hv
      exact absurd hv (List.not_mem_nil v)
    · intro v hv
      exact Bool.noConfusion hv
  exact (runOps_auxInv ops _ st' hinit hsafe hrun).1
theorem C9_invariant_preserved_witness : ClaimInv c9wSt :=
  C9_invariant_preserved c9wOps c9wSt (by decide) rfl
/-- C9, counterexample: calling `add_variable` twice for "A" leaves "A"
registered but present *twice* in the pending list (and absent from the
mapping) — neither "unassigned exactly once" nor "assigned", so the claimed
invariant is not preserved by every sequence of the public operations. -/
theorem C9_counterexample :
    runOps (CSP.init Nat) [.addVar "A" [1], .addVar "A" [1]] = .ok c9Bad ∧
    (c9Bad.variables_ "A").isSome = true ∧
    c9Bad.unassigned_var.count "A" = 2 ∧
    c9Bad.assignments "A" = none ∧
    ¬ ClaimInv c9Bad := by
  refine ⟨rfl, rfl, rfl, rfl, ?_⟩
  intro h
  rcases h "A" rfl with ⟨h1, -⟩ | ⟨h1, -⟩
  · exact absurd h1 (by decide)
  · exact h1 (by decide)
/-- C10: calling `assign` on a variable that is not in the unassigned list
raises (`list.remove` throws `ValueError`), and at the raise point the
assignment mapping has already been overwritten with the new value — the
model is left mutated on error (the counter and the pending list are
untouched, since the raise happens before they are updated). -/
theorem C10_assign_error_mutates {V : Type} [DecidableEq V] (st : CSPState V)
    (v : String) (value : V) (h : v ∉ st.unassigned_var) :
    CSP.assign st v value =
      .error { st with assignments := updf st.assignments v (some value) } := by
  simp only [CSP.assign]
  rw [if_neg]
  intro hcont
  rw [List.contains_iff_exists_mem_beq] at hcont
  obtain ⟨u, hu, hbeq⟩ := hcont
  exact h (by rwa [show v = u from beq_iff_eq.mp hbeq])
theorem C10_assign_error_mutates_witness :
    CSP.assign c8St1 "A" 2 =
      .error { c8St1 with assignments := updf c8St1.assignments "A" (some 2) } :=
  C10_assign_error_mutates c8St1 "A" 2 (by decide)
